import Mathlib

/-!
Verification development for the configsync repository.

We shallowly embed the symlink synchronizer (`internal/symlink/manager.go`),
the backup manager (`internal/backup/manager.go`), the deployment manager
(package `deploy`: `ExportBundle`/`ImportBundle`/`DeployBundle`/
`detectConflicts`/`extractTarGz`) and the configuration registry
(`internal/config`), over an explicit filesystem model.

Modelling conventions:
- the filesystem is an association list from canonical absolute paths
  (component lists) to nodes (regular file, directory, symlink);
- Go `path/filepath` functions (`Clean`, `Join`, `Dir`) are modelled on
  path components; `strings` functions are modelled character-wise on
  `String.data` so that everything reduces in the kernel;
- `time.Now()` is modelled by a `now : Nat` field threaded through the
  managers; SHA-256 hashing is modelled as an abstract injective tagging
  of file bytes (no claim depends on hash properties);
- `fmt.Printf` logging is dropped except where a claim is about the
  reported messages (the conflict listing of `DeployBundle`);
- fallible operations return `Option String × FS` (error message plus the
  possibly partially-mutated filesystem), matching Go's mutate-then-fail
  behaviour.
-/

namespace ConfigSync

/-! ## String helpers (character-level models of Go `strings` functions) -/

/-- Model of `strings.HasPrefix`. -/
def strHasPrefix (s pre : String) : Bool :=
  pre.data.isPrefixOf s.data

/-- Model of `strings.HasSuffix`. -/
def strHasSuffix (s suf : String) : Bool :=
  suf.data.isSuffixOf s.data

/-- Drop the first `n` characters of a string (model of slicing `s[n:]`). -/
def strDrop (s : String) (n : Nat) : String :=
  ⟨s.data.drop n⟩

/-- Model of `strings.ReplaceAll` for a single-character pattern. -/
def strReplaceChar (s : String) (a b : Char) : String :=
  ⟨s.data.map (fun c => if c = a then b else c)⟩

/-- Split a character list at a separator character. -/
def splitCharAux (sep : Char) : List Char → List (List Char)
  | [] => [[]]
  | c :: rest =>
    match splitCharAux sep rest with
    | [] => if c = sep then [[], []] else [[c]]
    | h :: t => if c = sep then [] :: h :: t else (c :: h) :: t

/-- Model of `strings.Split s "/"`. -/
def splitSlash (s : String) : List String :=
  (splitCharAux '/' s.data).map (fun cs => ⟨cs⟩)

/-- Model of `strings.Join`/`String.intercalate`. -/
def strIntercalate (sep : String) : List String → String
  | [] => ""
  | [x] => x
  | x :: rest => x ++ sep ++ strIntercalate sep rest

/-! ## Path model (Go `path/filepath` on a Unix filesystem) -/

/-- Model of `filepath.IsAbs`. -/
def isAbsG (p : String) : Bool := strHasPrefix p "/"

/-- The raw components of a path: split on `/`, dropping empty components
and `.` (the first phase of `filepath.Clean`). -/
def rawComps (p : String) : List String :=
  (splitSlash p).filter (fun c => c ≠ "" && c ≠ ".")

/-- One step of `..` resolution, as performed by `filepath.Clean`:
`..` pops the previous component, except that leading `..`s of a relative
path are kept, and `..` at the root of an absolute path is dropped. -/
def stepDots (rooted : Bool) (acc : List String) (c : String) : List String :=
  if c = ".." then
    match acc.getLast? with
    | some l => if l = ".." then acc ++ [".."] else acc.dropLast
    | none => if rooted then [] else [".."]
  else acc ++ [c]

/-- Dot-resolved components of a path. For an absolute path this is the
canonical component list used as a filesystem key. -/
def pkey (p : String) : List String :=
  (rawComps p).foldl (stepDots (isAbsG p)) []

/-- Render cleaned components back to a string, as `filepath.Clean` does. -/
def renderComps (rooted : Bool) (cs : List String) : String :=
  if rooted then "/" ++ strIntercalate "/" cs
  else if cs.isEmpty then "." else strIntercalate "/" cs

/-- Model of `filepath.Clean`. -/
def clean (p : String) : String :=
  renderComps (isAbsG p) (pkey p)

/-- Model of the two-argument `filepath.Join` (empty elements are skipped,
the result is cleaned). -/
def joinG (a b : String) : String :=
  if a = "" then (if b = "" then "" else clean b)
  else if b = "" then clean a
  else clean (a ++ "/" ++ b)

/-- Model of the three-argument `filepath.Join`. -/
def joinG3 (a b c : String) : String := joinG (joinG a b) c

/-- Model of the four-argument `filepath.Join`. -/
def joinG4 (a b c d : String) : String := joinG (joinG3 a b c) d

/-- Model of `filepath.Dir`: everything up to and including the final
slash, cleaned; `.` when the path holds no slash. -/
def dirG (p : String) : String :=
  let parts := splitSlash p
  if parts.length ≤ 1 then "." else clean (strIntercalate "/" parts.dropLast ++ "/")

/-! ## Data model (`internal/config/types.go`) -/

/-- `config.PathType`. -/
inductive PathType where
  | file
  | directory
  | glob
deriving DecidableEq, Repr

/-- `config.ConfigPath`: one tracked configuration path. -/
structure ConfigPath where
  source : String
  destination : String
  type : PathType
  required : Bool
  backedUp : Bool
  synced : Bool
  syncedAt : Option Nat
deriving DecidableEq, Repr

/-- `ConfigPath.MarkSynced`. -/
def ConfigPath.markSynced (p : ConfigPath) (now : Nat) : ConfigPath :=
  { p with synced := true, syncedAt := some now }

/-- `ConfigPath.MarkBackedUp`. -/
def ConfigPath.markBackedUp (p : ConfigPath) : ConfigPath :=
  { p with backedUp := true }

/-- `config.AppConfig` (the fields the verified operations read). -/
structure AppConfig where
  name : String
  displayName : String
  paths : List ConfigPath
  enabled : Bool
  lastSynced : Nat
deriving DecidableEq, Repr

/-- `AppConfig.IsEnabled`. -/
def AppConfig.isEnabled (a : AppConfig) : Bool := a.enabled

/-- `config.BackupInfo`: metadata sidecar for one backup snapshot. -/
structure BackupInfo where
  appName : String
  originalPath : String
  backupPath : String
  createdAt : Nat
  size : Nat
  checksum : String
deriving DecidableEq, Repr

/-- `config.Config` (the fields the verified operations read). -/
structure Config where
  version : String
  storePath : String
  backupPath : String
  apps : List (String × AppConfig)
  updatedAt : Nat
deriving DecidableEq, Repr

/-- `config.DeploymentBundle`. -/
structure DeploymentBundle where
  version : String
  createdAt : Nat
  createdBy : String
  apps : List (String × AppConfig)
  metadata : List (String × String)
deriving DecidableEq, Repr

/-- The deployment manager's `Conflict` record. -/
structure Conflict where
  appName : String
  message : String
deriving DecidableEq, Repr

/-! ## Filesystem model -/

/-- The bytes of a regular file.  Structured documents written by the code
(`yaml.Marshal` output) are kept structured, modelling the fact that the
serialization is injective and parsed back by `yaml.Unmarshal`. -/
inductive FileData where
  | raw (s : String)
  | info (bi : BackupInfo)
  | configDoc (c : Config)
deriving DecidableEq, Repr

/-- A filesystem node. -/
inductive FSNode where
  | file (d : FileData)
  | dir
  | symlink (target : String)
deriving DecidableEq, Repr

/-- Canonical key of an absolute path: its cleaned component list. -/
abbrev Key := List String

/-- The filesystem: an association list from canonical absolute paths to
nodes.  A directory's children are independent entries whose keys extend
the directory's key. -/
abbrev FS := List (Key × FSNode)

namespace FS

/-- Raw association lookup on canonical keys (model of `os.Lstat`). -/
def find : FS → Key → Option FSNode
  | [], _ => none
  | (k', n) :: rest, k => if k' = k then some n else find rest k

/-- Lookup by path string. -/
def findP (fs : FS) (p : String) : Option FSNode := fs.find (pkey p)

/-- Insert or replace the node at a key. -/
def insertK (fs : FS) (k : Key) (n : FSNode) : FS :=
  (k, n) :: fs.filter (fun e => e.1 ≠ k)

/-- Insert or replace the node at a path. -/
def insertP (fs : FS) (p : String) (n : FSNode) : FS := fs.insertK (pkey p) n

/-- Remove the entry at a key (children untouched). -/
def eraseK (fs : FS) (k : Key) : FS := fs.filter (fun e => e.1 ≠ k)

/-- Resolve a symlink target found at key `k`: absolute targets stand
alone, relative targets are joined to the symlink's directory
(`filepath.Join(filepath.Dir(path), link)`). -/
def resolveTarget (k : Key) (t : String) : Key :=
  if isAbsG t then pkey t else (rawComps t).foldl (stepDots true) k.dropLast

/-- Fuel-bounded symlink-following stat (model of `os.Stat`; running out
of fuel models `ELOOP`). -/
def statKN (fs : FS) : Nat → Key → Option FSNode
  | 0, _ => none
  | n + 1, k =>
    match fs.find k with
    | some (.symlink t) => fs.statKN n (resolveTarget k t)
    | r => r

/-- The symlink-chain budget (the kernel's limit, far above any chain the
claims exercise). -/
def linkFuel : Nat := 255

/-- Model of `os.Stat` on a key. -/
def statK (fs : FS) (k : Key) : Option FSNode := fs.statKN linkFuel k

/-- Model of `os.Stat` on a path string. -/
def statP (fs : FS) (p : String) : Option FSNode := fs.statK (pkey p)

/-- `Manager.pathExists` (`os.Stat` succeeding). -/
def pathExistsP (fs : FS) (p : String) : Bool := (fs.statP p).isSome

/-- `Manager.isSymlink` (`os.Lstat` and the mode bit). -/
def isSymlinkP (fs : FS) (p : String) : Bool :=
  match fs.findP p with
  | some (.symlink _) => true
  | _ => false

/-- `os.Readlink`. -/
def readlinkP (fs : FS) (p : String) : Option String :=
  match fs.findP p with
  | some (.symlink t) => some t
  | _ => none

/-- Does the key have strict descendants? -/
def hasChildren (fs : FS) (k : Key) : Bool :=
  fs.any (fun e => k ≠ e.1 && k.isPrefixOf e.1)

/-- Model of `os.Remove`: deletes a file, symlink or empty directory. -/
def removeP (fs : FS) (p : String) : Option String × FS :=
  let k := pkey p
  match fs.find k with
  | none => (some ("remove " ++ p ++ ": no such file or directory"), fs)
  | some .dir =>
    if fs.hasChildren k then (some ("remove " ++ p ++ ": directory not empty"), fs)
    else (none, fs.eraseK k)
  | some _ => (none, fs.eraseK k)

/-- Model of `os.RemoveAll`: deletes the whole subtree, never failing. -/
def removeAllP (fs : FS) (p : String) : FS :=
  fs.filter (fun e => ¬ (pkey p).isPrefixOf e.1)

/-- The chain of non-empty prefixes of a key, shortest first. -/
def chainOf (k : Key) : List Key :=
  (List.range k.length).map (fun i => k.take (i + 1))

/-- Model of `os.MkdirAll` on a key: walk the prefix chain, treating an
existing (stat-resolved) directory as done, failing on an existing
non-directory, and creating a directory where nothing exists (`os.Mkdir`
fails with `EEXIST` on a dangling symlink, so an entry whose stat fails
is still an error). -/
def mkdirAllK (fs : FS) (k : Key) : Option String × FS :=
  (chainOf k).foldl
    (fun acc q =>
      match acc with
      | (some e, f) => (some e, f)
      | (none, f) =>
        match f.statK q with
        | some .dir => (none, f)
        | some _ => (some ("mkdir " ++ renderComps true q ++ ": not a directory"), f)
        | none =>
          match f.find q with
          | some _ => (some ("mkdir " ++ renderComps true q ++ ": file exists"), f)
          | none => (none, f.insertK q .dir))
    (none, fs)

/-- Model of `os.MkdirAll` on a path string. -/
def mkdirAllP (fs : FS) (p : String) : Option String × FS := fs.mkdirAllK (pkey p)

/-- Model of `os.Symlink target source`: fails if something already sits
at `source`. -/
def symlinkOp (fs : FS) (target source : String) : Option String × FS :=
  match fs.findP source with
  | some _ => (some ("symlink " ++ source ++ ": file exists"), fs)
  | none => (none, fs.insertP source (.symlink target))

/-- Model of `os.Rename`: moves the entry and, for a directory, its whole
subtree.  Renaming a path into its own subtree fails (`EINVAL`: the new
path contains the old as a prefix); an existing destination directory is
an error, a directory cannot be renamed over an existing non-directory
(`ENOTDIR`), and a non-directory overwrites an existing destination
non-directory. -/
def renameOp (fs : FS) (src dst : String) : Option String × FS :=
  let s := pkey src
  let d := pkey dst
  if s = d then
    match fs.find s with
    | none => (some ("rename " ++ src ++ ": no such file or directory"), fs)
    | some _ => (none, fs)
  else
    match fs.find s with
    | none => (some ("rename " ++ src ++ ": no such file or directory"), fs)
    | some n =>
      if s.isPrefixOf d then
        (some ("rename " ++ src ++ ": invalid argument"), fs)
      else
        match fs.find d with
        | some .dir => (some ("rename " ++ dst ++ ": file exists"), fs)
        | some _ =>
          match n with
          | .dir => (some ("rename " ++ dst ++ ": not a directory"), fs)
          | _ =>
            (none, fs.filterMap (fun e =>
              if s.isPrefixOf e.1 then some (d ++ e.1.drop s.length, e.2)
              else if d.isPrefixOf e.1 then none
              else some e))
        | none =>
          (none, fs.filterMap (fun e =>
            if s.isPrefixOf e.1 then some (d ++ e.1.drop s.length, e.2)
            else if d.isPrefixOf e.1 then none
            else some e))

/-- All entries at or below a key, in filesystem order (the model of what
`filepath.Walk` visits). -/
def subtreeK (fs : FS) (k : Key) : FS :=
  fs.filter (fun e => k.isPrefixOf e.1)

/-- Copy a single regular file (`copyFile` of both managers: open the
source following symlinks, create/truncate the destination, copy bytes).
Opening a directory succeeds but reading it fails after the destination
has already been created empty, matching Go. -/
def copyFileK (fs : FS) (src dst : Key) : Option String × FS :=
  match fs.statK src with
  | some (.file d) =>
    (match fs.find dst with
     | some .dir => (some ("open " ++ renderComps true dst ++ ": is a directory"), fs)
     | _ => (none, fs.insertK dst (.file d)))
  | some .dir =>
    (match fs.find dst with
     | some .dir => (some ("open " ++ renderComps true dst ++ ": is a directory"), fs)
     | _ => (some ("read " ++ renderComps true src ++ ": is a directory"),
             fs.insertK dst (.file (.raw ""))))
  | _ => (some ("open " ++ renderComps true src ++ ": no such file or directory"), fs)

/-- Copy a directory tree (`copyDir` of both managers: `filepath.Walk`
over the source; directories are re-created with `os.MkdirAll`, anything
else is copied with `copyFile`, which resolves symlinks). -/
def copyDirK (fs : FS) (src dst : Key) : Option String × FS :=
  (fs.subtreeK src).foldl
    (fun acc e =>
      match acc with
      | (some err, f) => (some err, f)
      | (none, f) =>
        let dstK := dst ++ e.1.drop src.length
        match e.2 with
        | .dir => f.mkdirAllK dstK
        | _ => f.copyFileK e.1 dstK)
    (none, fs)

/-- `copyPath` of both managers: stat the source, recurse for a
directory, copy a single file otherwise. -/
def copyPathK (fs : FS) (src dst : Key) : Option String × FS :=
  match fs.statK src with
  | none => (some ("stat " ++ renderComps true src ++ ": no such file or directory"), fs)
  | some .dir => fs.copyDirK src dst
  | some _ => fs.copyFileK src dst

/-- String-path wrapper for `copyPathK`. -/
def copyPathOp (fs : FS) (src dst : String) : Option String × FS :=
  fs.copyPathK (pkey src) (pkey dst)

end FS

/-! ## Shared path expansion (`expandPath` of all three managers) -/

/-- `Manager.expandPath`: replace a leading `~/` with the home directory;
everything else passes through unchanged. -/
def expandPath (homeDir p : String) : String :=
  if strHasPrefix p "~/" then joinG homeDir (strDrop p 2) else p

/-! ## Backup manager (`internal/backup/manager.go`) -/

/-- `backup.Manager` (with `now` modelling `time.Now()`). -/
structure BackupManager where
  backupDir : String
  homeDir : String
  verbose : Bool
  now : Nat
deriving Repr

namespace BackupManager

/-- Abstract model of SHA-256 over file bytes: an injective tagging.  No
claim depends on properties of the hash beyond being a function of the
bytes. -/
def sha256Model : FileData → String
  | .raw s => "sha256:" ++ s
  | .info _ => "sha256:<backup-info-yaml>"
  | .configDoc _ => "sha256:<config-yaml>"

/-- Byte size of a file's content in the model. -/
def byteSize : FileData → Nat
  | .raw s => s.data.length
  | .info _ => 1
  | .configDoc _ => 1

/-- `Manager.calculateChecksum`: open the file (following symlinks) and
hash it; fails on a missing path or a directory. -/
def calculateChecksum (fs : FS) (p : String) : Option String :=
  match fs.statP p with
  | some (.file d) => some (sha256Model d)
  | _ => none

/-- `Manager.calculateSize`: file size, or recursive sum over a
directory. -/
def calculateSize (fs : FS) (p : String) : Option Nat :=
  match fs.statP p with
  | some (.file d) => some (byteSize d)
  | some .dir =>
    some (((fs.subtreeK (pkey p)).map (fun e =>
      match e.2 with
      | .file d => byteSize d
      | _ => 0)).foldl (· + ·) 0)
  | _ => none

/-- `Manager.getBackupPath`: a stable snapshot address derived from the
app name and the destination (slashes and spaces flattened). -/
def getBackupPath (m : BackupManager) (appName destination : String) : String :=
  let safeName := strReplaceChar (strReplaceChar destination '/' '_') ' ' '_'
  joinG4 m.backupDir "files" appName safeName

/-- `Manager.getBackupInfoPath`: the sidecar document's address, derived
from the app name and the original path. -/
def getBackupInfoPath (m : BackupManager) (appName originalPath : String) : String :=
  let safeName := strReplaceChar (strReplaceChar originalPath '/' '_') ' ' '_'
  joinG4 m.backupDir "info" appName (safeName ++ ".yaml")

/-- `Manager.saveBackupInfo`: create the sidecar directory and write the
metadata document. -/
def saveBackupInfo (m : BackupManager) (bi : BackupInfo) (fs : FS) : Option String × FS :=
  let infoPath := m.getBackupInfoPath bi.appName bi.originalPath
  match fs.mkdirAllP (dirG infoPath) with
  | (some e, f) => (some e, f)
  | (none, f) => (none, f.insertP infoPath (.file (.info bi)))

/-- `Manager.BackupPath`: snapshot one configuration path before it is
symlinked.  No-op when the source is missing or already a symlink. -/
def backupPathOp (m : BackupManager) (appName : String) (p : ConfigPath) (fs : FS) :
    Option String × FS :=
  let sourcePath := expandPath m.homeDir p.source
  if fs.pathExistsP sourcePath = false then (none, fs)
  else if fs.isSymlinkP sourcePath then (none, fs)
  else
    let checksumRes : Except String String :=
      if p.type = PathType.file then
        match calculateChecksum fs sourcePath with
        | some c => .ok c
        | none => .error "failed to calculate checksum"
      else .ok ""
    match checksumRes with
    | .error e => (some e, fs)
    | .ok checksum =>
      match calculateSize fs sourcePath with
      | none => (some "failed to calculate size", fs)
      | some size =>
        let backupPath := m.getBackupPath appName p.destination
        let bi : BackupInfo :=
          { appName := appName, originalPath := sourcePath, backupPath := backupPath
            createdAt := m.now, size := size, checksum := checksum }
        match fs.mkdirAllP (dirG backupPath) with
        | (some e, f) => (some ("failed to create backup directory: " ++ e), f)
        | (none, f) =>
          match f.copyPathOp sourcePath backupPath with
          | (some e, f') => (some ("failed to create backup: " ++ e), f')
          | (none, f') =>
            match m.saveBackupInfo bi f' with
            | (some e, f'') => (some ("failed to save backup info: " ++ e), f'')
            | (none, f'') => (none, f'')

/-- `Manager.RestorePath`: restore a path from its snapshot; fails when no
snapshot exists at the derived address. -/
def restorePathOp (m : BackupManager) (appName : String) (p : ConfigPath) (fs : FS) :
    Option String × FS :=
  let sourcePath := expandPath m.homeDir p.source
  let backupPath := m.getBackupPath appName p.destination
  if fs.pathExistsP backupPath = false then
    (some ("backup does not exist: " ++ backupPath), fs)
  else
    let fs := if fs.pathExistsP sourcePath then fs.removeAllP sourcePath else fs
    match fs.mkdirAllP (dirG sourcePath) with
    | (some e, f) => (some ("failed to create source directory: " ++ e), f)
    | (none, f) =>
      match f.copyPathOp backupPath sourcePath with
      | (some e, f') => (some ("failed to restore from backup: " ++ e), f')
      | (none, f') => (none, f')

/-- `Manager.ListBackups`: read every parseable `.yaml` sidecar under the
app's backup-info namespace; an absent namespace yields the empty list. -/
def listBackups (m : BackupManager) (appName : String) (fs : FS) :
    Except String (List BackupInfo) :=
  let backupInfoDir := joinG3 m.backupDir "info" appName
  if fs.pathExistsP backupInfoDir = false then .ok []
  else
    let k := pkey backupInfoDir
    let entries := fs.filter (fun e => e.1.length = k.length + 1 && k.isPrefixOf e.1)
    .ok (entries.foldl
      (fun acc e =>
        match e.2 with
        | .dir => acc
        | .file (.info bi) =>
          if strHasSuffix (renderComps true e.1) ".yaml" then acc ++ [bi] else acc
        | _ => acc)
      [])

end BackupManager

/-! ## Symlink manager (`internal/symlink/manager.go`) -/

/-- `symlink.Manager` (with `now` modelling `time.Now()`). -/
structure SymlinkManager where
  homeDir : String
  storeDir : String
  backupDir : String
  dryRun : Bool
  verbose : Bool
  now : Nat
deriving Repr

namespace SymlinkManager

/-- The backup manager embedded by `symlink.NewManager`. -/
def backupManager (m : SymlinkManager) : BackupManager :=
  { backupDir := m.backupDir, homeDir := m.homeDir, verbose := m.verbose, now := m.now }

/-- `Manager.isCorrectSymlink`: the source must be a symlink whose target,
resolved relative to the source's directory when relative and cleaned,
equals the cleaned store target. -/
def isCorrectSymlink (fs : FS) (sourcePath targetPath : String) : Bool :=
  if fs.isSymlinkP sourcePath = false then false
  else
    match fs.readlinkP sourcePath with
    | none => false
    | some link =>
      let link := if isAbsG link then link else joinG (dirG sourcePath) link
      clean link == clean targetPath

/-- `Manager.ensureStoreDirectory`. -/
def ensureStoreDirectory (m : SymlinkManager) (fs : FS) (storePath : String) :
    Option String × FS :=
  if m.dryRun then (none, fs)
  else
    match fs.mkdirAllP (dirG storePath) with
    | (some e, f) => (some ("failed to create store directory: " ++ e), f)
    | (none, f) => (none, f)

/-- `Manager.removeExistingSymlink`. -/
def removeExistingSymlink (m : SymlinkManager) (fs : FS) (sourcePath : String) :
    Option String × FS :=
  if m.dryRun then (none, fs)
  else
    match fs.removeP sourcePath with
    | (some e, f) => (some ("failed to remove existing symlink: " ++ e), f)
    | (none, f) => (none, f)

/-- `Manager.moveSourceToStore`: best-effort backup under the fixed app
id `"temp"` (a failure is logged and ignored), then move the original
into the store and mark the path backed up. -/
def moveSourceToStore (m : SymlinkManager) (fs : FS) (sourcePath storePath : String)
    (p : ConfigPath) : Option String × FS × ConfigPath :=
  if m.dryRun then (none, fs, p)
  else
    let fs := (m.backupManager.backupPathOp "temp" p fs).2
    match fs.renameOp sourcePath storePath with
    | (some e, f) => (some ("failed to move to store: " ++ e), f, p)
    | (none, f) => (none, f, p.markBackedUp)

/-- `Manager.handleExistingSource`. -/
def handleExistingSource (m : SymlinkManager) (fs : FS) (sourcePath storePath : String)
    (p : ConfigPath) : Option String × FS × ConfigPath :=
  if fs.pathExistsP sourcePath = false then (none, fs, p)
  else if fs.isSymlinkP sourcePath then
    match m.removeExistingSymlink fs sourcePath with
    | (r, f) => (r, f, p)
  else m.moveSourceToStore fs sourcePath storePath p

/-- `Manager.handleMissingPath`: a missing required path is a hard error,
a missing optional path is a silent skip. -/
def handleMissingPath (sourcePath : String) (p : ConfigPath) : Option String :=
  if p.required then some ("required path does not exist: " ++ sourcePath) else none

/-- `Manager.createSymlink`: ensure the source's directory, then place
the symlink. -/
def createSymlink (fs : FS) (target source : String) : Option String × FS :=
  match fs.mkdirAllP (dirG source) with
  | (some e, f) => (some ("failed to create source directory: " ++ e), f)
  | (none, f) => f.symlinkOp target source

/-- `Manager.createFinalSymlink`. -/
def createFinalSymlink (m : SymlinkManager) (fs : FS) (sourcePath storePath : String) :
    Option String × FS :=
  if m.dryRun then (none, fs)
  else
    match createSymlink fs storePath sourcePath with
    | (some e, f) => (some ("failed to create symlink: " ++ e), f)
    | (none, f) => (none, f)

/-- `Manager.syncPath`: the per-path sync state machine. -/
def syncPath (m : SymlinkManager) (fs : FS) (p : ConfigPath) :
    Option String × FS × ConfigPath :=
  let sourcePath := expandPath m.homeDir p.source
  let storePath := joinG m.storeDir p.destination
  if isCorrectSymlink fs sourcePath storePath then (none, fs, p)
  else
    match m.ensureStoreDirectory fs storePath with
    | (some e, f) => (some e, f, p)
    | (none, f) =>
      match m.handleExistingSource f sourcePath storePath p with
      | (some e, f', p') => (some e, f', p')
      | (none, f', p') =>
        if f'.pathExistsP sourcePath = false ∧ f'.pathExistsP storePath = false then
          (handleMissingPath sourcePath p', f', p')
        else
          match m.createFinalSymlink f' sourcePath storePath with
          | (r, f'') => (r, f'', p')

/-- `Manager.copyFromStore`. -/
def copyFromStore (fs : FS) (storePath sourcePath : String) : Option String × FS :=
  match fs.mkdirAllP (dirG sourcePath) with
  | (some e, f) => (some ("failed to create source directory: " ++ e), f)
  | (none, f) =>
    match f.statP storePath with
    | none => (some ("stat " ++ storePath ++ ": no such file or directory"), f)
    | some .dir => f.copyPathK (pkey storePath) (pkey sourcePath)
    | some _ => f.copyFileK (pkey storePath) (pkey sourcePath)

/-- `Manager.unsyncPath`: remove the symlink and copy the store copy back;
a source that is not a correct symlink to the store is left untouched. -/
def unsyncPath (m : SymlinkManager) (fs : FS) (p : ConfigPath) : Option String × FS :=
  let sourcePath := expandPath m.homeDir p.source
  let storePath := joinG m.storeDir p.destination
  if isCorrectSymlink fs sourcePath storePath = false then (none, fs)
  else
    match (if m.dryRun then (none, fs) else
      match fs.removeP sourcePath with
      | (some e, f) => (some ("failed to remove symlink: " ++ e), f)
      | (none, f) => (none, f)) with
    | (some e, f) => (some e, f)
    | (none, f) =>
      if f.pathExistsP storePath then
        if m.dryRun then (none, f)
        else
          match copyFromStore f storePath sourcePath with
          | (some e, f') => (some ("failed to copy from store: " ++ e), f')
          | (none, f') => (none, f')
      else (none, f)

/-- `Manager.SyncApp`: iterate all paths, collecting per-path failures,
and mark each successfully synced path (outside dry-run). -/
def syncApp (m : SymlinkManager) (fs : FS) (app : AppConfig) :
    Option String × FS × AppConfig :=
  if app.isEnabled = false then (none, fs, app)
  else
    let res := app.paths.foldl
      (fun (acc : FS × List ConfigPath × List String) p =>
        let (fs, ps, errs) := acc
        match m.syncPath fs p with
        | (some e, fs', p') => (fs', ps ++ [p'], errs ++ [p.source ++ ": " ++ e])
        | (none, fs', p') =>
          (fs', ps ++ [if m.dryRun then p' else p'.markSynced m.now], errs))
      (fs, [], [])
    match res with
    | (fs', ps, errs) =>
      (if errs = [] then none
       else some ("errors syncing " ++ app.displayName ++ ":\n" ++ strIntercalate "\n" errs),
       fs', { app with paths := ps })

/-- `Manager.UnsyncApp`. -/
def unsyncApp (m : SymlinkManager) (fs : FS) (app : AppConfig) : Option String × FS :=
  let res := app.paths.foldl
    (fun (acc : FS × List String) p =>
      let (fs, errs) := acc
      match m.unsyncPath fs p with
      | (some e, fs') => (fs', errs ++ [p.source ++ ": " ++ e])
      | (none, fs') => (fs', errs))
    (fs, [])
  match res with
  | (fs', errs) =>
    (if errs = [] then none
     else some ("errors unsyncing " ++ app.displayName ++ ":\n" ++ strIntercalate "\n" errs),
     fs')

end SymlinkManager

/-! ## Configuration registry (`internal/config`, package `config`) -/

/-- `config.Manager` (the on-disk registry document handler).  The loaded
document is cached in `config`, as in the Go struct. -/
structure ConfigManager where
  configDir : String
  configPath : String
  config : Option Config
deriving DecidableEq, Repr

namespace ConfigManager

/-- `Manager.Load`: read and parse the registry document. -/
def loadOp (cm : ConfigManager) (fs : FS) : Except String (Config × ConfigManager) :=
  match fs.statP cm.configPath with
  | some (.file (.configDoc c)) => .ok (c, { cm with config := some c })
  | some (.file _) => .error "failed to parse config file"
  | _ => .error ("configuration file not found: " ++ cm.configPath)

/-- Go map assignment `cfg.Apps[name] = app` on the association-list
model: replace an existing binding or append a new one. -/
def upsertApp (apps : List (String × AppConfig)) (name : String) (a : AppConfig) :
    List (String × AppConfig) :=
  if apps.any (fun e => e.1 = name) then
    apps.map (fun e => if e.1 = name then (name, a) else e)
  else apps ++ [(name, a)]

/-- `Manager.AddApp`: load the registry if not cached, upsert the app and
save the document (`Save` stamps `UpdatedAt`). -/
def addApp (cm : ConfigManager) (a : AppConfig) (fs : FS) (now : Nat) :
    Except String (ConfigManager × FS) :=
  let loaded : Except String (Config × ConfigManager) :=
    match cm.config with
    | some c => .ok (c, cm)
    | none => cm.loadOp fs
  match loaded with
  | .error e => .error ("failed to load config: " ++ e)
  | .ok (c, cm') =>
    let c' := { c with apps := upsertApp c.apps a.name a, updatedAt := now }
    .ok ({ cm' with config := some c' }, fs.insertP cm'.configPath (.file (.configDoc c')))

end ConfigManager

/-! ## Deployment manager (package `deploy`) -/

/-- `deploy.Manager` (with `now` modelling `time.Now()`). -/
structure DeployManager where
  homeDir : String
  storeDir : String
  backupDir : String
  verbose : Bool
  now : Nat
deriving Repr

/-- A tar entry type flag (`tar.TypeDir`, `tar.TypeReg`, anything else). -/
inductive TarType where
  | dir
  | reg
  | other
deriving DecidableEq, Repr

/-- One archive entry of a decompressed bundle stream. -/
structure TarEntry where
  name : String
  typeflag : TarType
  content : String
deriving DecidableEq, Repr

namespace DeployManager

/-- Map-membership lookup `currentCfg.Apps[appName]` on the
association-list model. -/
def lookupApp (apps : List (String × AppConfig)) (name : String) : Option AppConfig :=
  match apps.find? (fun e => e.1 = name) with
  | some e => some e.2
  | none => none

/-- The loop body of `Manager.detectConflicts` for one bundle app: a
"newer" conflict when the local `lastSynced` is strictly after the
bundle's creation time (`LastSynced.After(bundle.CreatedAt)`), then a
"path count" conflict when the path counts differ. -/
def appConflicts (createdAt : Nat) (apps : List (String × AppConfig))
    (e : String × AppConfig) : List Conflict :=
  match lookupApp apps e.1 with
  | none => []
  | some currentApp =>
    (if createdAt < currentApp.lastSynced then
       [{ appName := e.1, message := "local configuration is newer than bundle" }]
     else []) ++
    (if currentApp.paths.length ≠ e.2.paths.length then
       [{ appName := e.1, message := "path count differs" }]
     else [])

/-- `Manager.detectConflicts`: for every app present in both the bundle
and the current registry, flag a conflict when the local `lastSynced` is
strictly after the bundle's creation time, and another when the path
counts differ. -/
def detectConflicts (bundle : DeploymentBundle) (currentCfg : Config) : List Conflict :=
  bundle.apps.foldl
    (fun conflicts e => conflicts ++ appConflicts bundle.createdAt currentCfg.apps e)
    []

/-- `Manager.extractTarGz`: sequential extraction of the decompressed tar
stream into `targetDir`, with the path-traversal guard checked on every
entry before anything of that entry is written. -/
def extractTarGz (entries : List TarEntry) (targetDir : String) (fs : FS) :
    Option String × FS :=
  match entries with
  | [] => (none, fs)
  | h :: rest =>
    let path := joinG targetDir h.name
    if strHasPrefix path (clean targetDir ++ "/") = false then
      (some ("invalid path in archive: " ++ h.name), fs)
    else
      let step : Option String × FS :=
        match h.typeflag with
        | .dir => fs.mkdirAllP path
        | .reg =>
          (match fs.mkdirAllP (dirG path) with
           | (some e, f) => (some e, f)
           | (none, f) =>
             match f.findP path with
             | some .dir => (some ("open " ++ path ++ ": is a directory"), f)
             | _ => (none, f.insertP path (.file (.raw h.content))))
        | .other => (none, fs)
      match step with
      | (some e, f) => (some e, f)
      | (none, f) => extractTarGz rest targetDir f

/-- `Manager.deployAppFiles`: copy each staged path of one app from the
bundle directory into the store; a missing staged file is skipped unless
the path is required. -/
def deployAppFiles (m : DeployManager) (appConfig : AppConfig) (bundleFilesDir : String)
    (fs : FS) : Option String × FS :=
  appConfig.paths.foldl
    (fun acc p =>
      match acc with
      | (some e, f) => (some e, f)
      | (none, f) =>
        let bundlePath := joinG bundleFilesDir p.destination
        if f.pathExistsP bundlePath = false then
          if p.required then
            (some ("required file missing from bundle: " ++ p.destination), f)
          else (none, f)
        else
          let storePath := joinG m.storeDir p.destination
          match f.mkdirAllP (dirG storePath) with
          | (some e, f') => (some ("failed to create store directory: " ++ e), f')
          | (none, f') =>
            match f'.copyPathOp bundlePath storePath with
            | (some e, f'') => (some ("failed to copy to store: " ++ e), f'')
            | (none, f'') => (none, f''))
    (none, fs)

/-- The outcome of `Manager.DeployBundle`: the conflict lines printed to
the caller, the returned error, the final filesystem and registry state,
and the tally of deployed/failed app display names. -/
structure DeployResult where
  output : List String
  err : Option String
  fs : FS
  cm : ConfigManager
  deployed : List String
  failed : List String
deriving Repr

/-- The per-app body of `DeployBundle`'s loop: copy the app's staged
files into the store when present, then upsert the app into the
registry; either failure adds the app to the failed tally and moves on. -/
def deployStep (m : DeployManager) (bundleDir : String)
    (acc : List String × List String × FS × ConfigManager) (e : String × AppConfig) :
    List String × List String × FS × ConfigManager :=
  match acc, e with
  | (deployed, failed, fs, cm), (appName, appCfg) =>
    let bundleFilesDir := joinG3 bundleDir "files" appName
    match (if fs.pathExistsP bundleFilesDir then
             m.deployAppFiles appCfg bundleFilesDir fs
           else (none, fs)) with
    | (some _, fs') => (deployed, failed ++ [appCfg.displayName], fs', cm)
    | (none, fs') =>
      match cm.addApp appCfg fs' m.now with
      | .error _ => (deployed, failed ++ [appCfg.displayName], fs', cm)
      | .ok (cm', fs'') => (deployed ++ [appCfg.displayName], failed, fs'', cm')

/-- `Manager.DeployBundle`: refuse on detected conflicts unless forced;
otherwise process every app, collecting per-app failures without
stopping, and fail only when nothing deployed while something failed. -/
def deployBundle (m : DeployManager) (bundle : DeploymentBundle) (bundleDir : String)
    (cm : ConfigManager) (force : Bool) (fs : FS) : DeployResult :=
  match cm.loadOp fs with
  | .error e =>
    { output := [], err := some ("failed to load current configuration: " ++ e)
      fs := fs, cm := cm, deployed := [], failed := [] }
  | .ok (currentCfg, cm) =>
    let conflicts := detectConflicts bundle currentCfg
    if force = false ∧ conflicts ≠ [] then
      { output := "Deployment conflicts detected:" ::
          conflicts.map (fun c => "  - " ++ c.appName ++ ": " ++ c.message)
        err := some "use --force to override conflicts"
        fs := fs, cm := cm, deployed := [], failed := [] }
    else
      match bundle.apps.foldl (m.deployStep bundleDir) ([], [], fs, cm) with
      | (deployed, failed, fs', cm') =>
        { output := []
          err := if failed ≠ [] ∧ deployed = [] then
                   some "failed to deploy any applications"
                 else none
          fs := fs', cm := cm', deployed := deployed, failed := failed }

end DeployManager

/-! ## Filesystem lemma library -/

namespace FS

theorem find_nil (k : Key) : find ([] : FS) k = none := rfl

theorem find_cons (e : Key × FSNode) (rest : FS) (k : Key) :
    find (e :: rest) k = if e.1 = k then some e.2 else find rest k := rfl

theorem find_filter_keep (P : Key × FSNode → Bool) (q : Key)
    (hq : ∀ n, P (q, n) = true) :
    ∀ fs : FS, find (fs.filter P) q = find fs q := by
  intro fs
  induction fs with
  | nil => rfl
  | cons e rest ih =>
    by_cases he : e.1 = q
    · have hPe : P e = true := by
        have := hq e.2
        cases e
        simp_all
      simp [List.filter_cons, hPe, find, he]
    · cases hP : P e
      · simp [List.filter_cons, hP, find, he, ih]
      · simp [List.filter_cons, hP, find, he, ih]

theorem find_filter_drop (P : Key × FSNode → Bool) (q : Key)
    (hq : ∀ n, P (q, n) = false) :
    ∀ fs : FS, find (fs.filter P) q = none := by
  intro fs
  induction fs with
  | nil => rfl
  | cons e rest ih =>
    by_cases he : e.1 = q
    · have hPe : P e = false := by
        have := hq e.2
        cases e
        simp_all
      simp [List.filter_cons, hPe, ih]
    · cases hP : P e
      · simp [List.filter_cons, hP, ih]
      · simp [List.filter_cons, hP, find, he, ih]

theorem find_insertK (fs : FS) (k : Key) (n : FSNode) (q : Key) :
    (fs.insertK k n).find q = if k = q then some n else fs.find q := by
  unfold insertK
  by_cases h : k = q
  · simp [find, h]
  · simp only [find, h, if_false]
    exact find_filter_keep _ q (fun _ => by simp [Ne.symm h]) fs

theorem find_eraseK (fs : FS) (k : Key) (q : Key) :
    (fs.eraseK k).find q = if k = q then none else fs.find q := by
  unfold eraseK
  by_cases h : k = q
  · subst h
    simp only [if_true]
    exact find_filter_drop _ k (fun _ => by simp) fs
  · simp only [h, if_false]
    exact find_filter_keep _ q (fun _ => by simp [Ne.symm h]) fs

theorem statKN_of_find_none (fs : FS) (n : Nat) (k : Key) (h : fs.find k = none) :
    fs.statKN n k = none := by
  cases n <;> simp [statKN, h]

theorem statKN_of_find_file (fs : FS) (n : Nat) (k : Key) (d : FileData)
    (hn : n ≠ 0) (h : fs.find k = some (.file d)) :
    fs.statKN n k = some (.file d) := by
  obtain ⟨m, rfl⟩ := Nat.exists_eq_succ_of_ne_zero hn
  simp [statKN, h]

theorem statKN_of_find_dir (fs : FS) (n : Nat) (k : Key)
    (hn : n ≠ 0) (h : fs.find k = some .dir) :
    fs.statKN n k = some .dir := by
  obtain ⟨m, rfl⟩ := Nat.exists_eq_succ_of_ne_zero hn
  simp [statKN, h]

theorem statKN_of_find_symlink (fs : FS) (n : Nat) (k : Key) (t : String)
    (h : fs.find k = some (.symlink t)) :
    fs.statKN (n + 1) k = fs.statKN n (resolveTarget k t) := by
  simp [statKN, h]

theorem linkFuel_succ : linkFuel = 254 + 1 := rfl

theorem statK_of_find_none (fs : FS) (k : Key) (h : fs.find k = none) :
    fs.statK k = none := statKN_of_find_none fs _ k h

theorem statK_of_find_file (fs : FS) (k : Key) (d : FileData)
    (h : fs.find k = some (.file d)) : fs.statK k = some (.file d) :=
  statKN_of_find_file fs _ k d (by decide) h

theorem statK_of_find_dir (fs : FS) (k : Key) (h : fs.find k = some .dir) :
    fs.statK k = some .dir :=
  statKN_of_find_dir fs _ k (by decide) h

theorem statK_of_find_symlink (fs : FS) (k : Key) (t : String)
    (h : fs.find k = some (.symlink t)) :
    fs.statK k = fs.statKN 254 (resolveTarget k t) := by
  rw [statK, linkFuel_succ]
  exact statKN_of_find_symlink fs 254 k t h

/-- The "only adds directories" relation between filesystem states. -/
def growsDirs (f g : FS) : Prop :=
  ∀ q, g.find q = f.find q ∨ (f.find q = none ∧ g.find q = some .dir)

theorem growsDirs_refl (f : FS) : growsDirs f f := fun _ => Or.inl rfl

theorem growsDirs_trans {f g h : FS} (h₁ : growsDirs f g) (h₂ : growsDirs g h) :
    growsDirs f h := by
  intro q
  rcases h₂ q with h₂q | ⟨h₂n, h₂d⟩
  · rcases h₁ q with h₁q | ⟨h₁n, h₁d⟩
    · exact Or.inl (h₂q.trans h₁q)
    · exact Or.inr ⟨h₁n, h₂q.trans h₁d⟩
  · rcases h₁ q with h₁q | ⟨h₁n, h₁d⟩
    · exact Or.inr ⟨h₁q ▸ h₂n, h₂d⟩
    · exact Or.inr ⟨h₁n, h₂d⟩

theorem growsDirs_insert_dir {f : FS} {k : Key} (hk : f.find k = none) :
    growsDirs f (f.insertK k .dir) := by
  intro q
  rw [find_insertK]
  by_cases h : k = q
  · subst h
    exact Or.inr ⟨hk, by simp⟩
  · simp [h]

/-- `mkdirAll` only creates directories at previously-absent keys. -/
theorem mkdirAllK_growsDirs (fs : FS) (k : Key) :
    growsDirs fs (fs.mkdirAllK k).2 := by
  unfold mkdirAllK
  generalize chainOf k = cs
  induction cs generalizing fs with
  | nil => exact growsDirs_refl fs
  | cons q rest ih =>
    rw [List.foldl_cons]
    rcases hs : fs.statK q with _ | n
    · rcases hf : fs.find q with _ | n
      · simp only [hs, hf]
        exact growsDirs_trans (growsDirs_insert_dir hf) (ih _)
      · simp only [hs, hf]
        clear ih
        induction rest generalizing fs with
        | nil => exact growsDirs_refl fs
        | cons q' rest' ih' => exact ih' fs hs hf
    · rcases n with d | _ | t
      · simp only [hs]
        clear ih
        induction rest generalizing fs with
        | nil => exact growsDirs_refl fs
        | cons q' rest' ih' => exact ih' fs hs
      · simp only [hs]
        exact ih fs
      · simp only [hs]
        clear ih
        induction rest generalizing fs with
        | nil => exact growsDirs_refl fs
        | cons q' rest' ih' => exact ih' fs hs

theorem mkdirAllP_growsDirs (fs : FS) (p : String) :
    growsDirs fs (fs.mkdirAllP p).2 :=
  mkdirAllK_growsDirs fs (pkey p)

/-- `mkdirAll` touches no key outside the prefix chain it creates. -/
theorem mkdirAllK_find_outside (fs : FS) (k : Key) (q : Key) (hq : q ∉ chainOf k) :
    ((fs.mkdirAllK k).2).find q = fs.find q := by
  unfold mkdirAllK
  have main : ∀ (cs : List Key) (acc : Option String × FS), q ∉ cs →
      find acc.2 q = fs.find q →
      find (cs.foldl (fun acc q' =>
        match acc with
        | (some e, f) => (some e, f)
        | (none, f) =>
          match f.statK q' with
          | some .dir => (none, f)
          | some _ => (some ("mkdir " ++ renderComps true q' ++ ": not a directory"), f)
          | none =>
            match f.find q' with
            | some _ => (some ("mkdir " ++ renderComps true q' ++ ": file exists"), f)
            | none => (none, f.insertK q' .dir)) acc).2 q = fs.find q := by
    intro cs
    induction cs with
    | nil => intro acc _ hacc; exact hacc
    | cons c rest ih =>
      intro acc hq' hacc
      have hqc : q ≠ c := fun hh => hq' (hh ▸ List.mem_cons_self c rest)
      have hqrest : q ∉ rest := fun hh => hq' (List.mem_cons_of_mem c hh)
      rw [List.foldl_cons]
      rcases acc with ⟨r, f⟩
      cases r with
      | some e => exact ih _ hqrest hacc
      | none =>
        rcases hst : f.statK c with _ | n
        · rcases hfc : f.find c with _ | n'
          · simp only [hst, hfc]
            refine ih _ hqrest ?_
            simpa [find_insertK, Ne.symm hqc] using hacc
          · simp only [hst, hfc]
            exact ih _ hqrest hacc
        · rcases n with d | _ | t
          · simp only [hst]
            exact ih _ hqrest hacc
          · simp only [hst]
            exact ih _ hqrest hacc
          · simp only [hst]
            exact ih _ hqrest hacc
  exact main (chainOf k) (none, fs) hq rfl

theorem growsDirs_find_some {f g : FS} (h : growsDirs f g) {q : Key} {n : FSNode}
    (hq : f.find q = some n) : g.find q = some n := by
  rcases h q with hg | ⟨hn, _⟩
  · exact hg.trans hq
  · rw [hq] at hn
    exact absurd hn (by simp)

/-- The per-entry remapping performed by a successful cross-key rename. -/
def renameEntry (s d : Key) (e : Key × FSNode) : Option (Key × FSNode) :=
  if s.isPrefixOf e.1 then some (d ++ e.1.drop s.length, e.2)
  else if d.isPrefixOf e.1 then none
  else some e

/-- A successful rename between distinct keys is exactly the subtree
remap. -/
theorem renameOp_ok_eq (fs : FS) (src dst : String) (f : FS)
    (hsd : pkey src ≠ pkey dst)
    (h : fs.renameOp src dst = (none, f)) :
    f = fs.filterMap (renameEntry (pkey src) (pkey dst)) := by
  unfold renameOp at h
  rw [if_neg hsd] at h
  rcases hfs : fs.find (pkey src) with _ | n
  · simp only [hfs] at h
    exact absurd (congrArg (fun x => x.1) h) (by simp)
  · simp only [hfs] at h
    by_cases hpre : (pkey src).isPrefixOf (pkey dst)
    · rw [if_pos hpre] at h
      exact absurd (congrArg (fun x => x.1) h) (by simp)
    · rw [if_neg hpre] at h
      rcases hfd : fs.find (pkey dst) with _ | nd
      · simp only [hfd] at h
        exact (congrArg (fun x => x.2) h).symm.trans rfl
      · cases nd with
        | file d' =>
          simp only [hfd] at h
          cases n with
          | file d₂ => exact (congrArg (fun x => x.2) h).symm.trans rfl
          | dir => exact absurd (congrArg (fun x => x.1) h) (by simp)
          | symlink t₂ => exact (congrArg (fun x => x.2) h).symm.trans rfl
        | dir =>
          simp only [hfd] at h
          exact absurd (congrArg (fun x => x.1) h) (by simp)
        | symlink t =>
          simp only [hfd] at h
          cases n with
          | file d₂ => exact (congrArg (fun x => x.2) h).symm.trans rfl
          | dir => exact absurd (congrArg (fun x => x.1) h) (by simp)
          | symlink t₂ => exact (congrArg (fun x => x.2) h).symm.trans rfl

theorem renameEntry_pos (s d : Key) (e : Key × FSNode) (h : s <+: e.1) :
    renameEntry s d e = some (d ++ e.1.drop s.length, e.2) := by
  unfold renameEntry
  rw [if_pos ((List.isPrefixOf_iff_prefix).mpr h)]

theorem renameEntry_drop (s d : Key) (e : Key × FSNode) (h1 : ¬ s <+: e.1)
    (h2 : d <+: e.1) : renameEntry s d e = none := by
  unfold renameEntry
  rw [if_neg (fun hh => h1 ((List.isPrefixOf_iff_prefix).mp hh)),
    if_pos ((List.isPrefixOf_iff_prefix).mpr h2)]

theorem renameEntry_keep (s d : Key) (e : Key × FSNode) (h1 : ¬ s <+: e.1)
    (h2 : ¬ d <+: e.1) : renameEntry s d e = some e := by
  unfold renameEntry
  rw [if_neg (fun hh => h1 ((List.isPrefixOf_iff_prefix).mp hh)),
    if_neg (fun hh => h2 ((List.isPrefixOf_iff_prefix).mp hh))]

theorem find_renamed_other (s d q : Key) (hs : ¬ s <+: q) (hd : ¬ d <+: q) :
    ∀ fs : FS, find (fs.filterMap (renameEntry s d)) q = find fs q := by
  intro fs
  induction fs with
  | nil => rfl
  | cons e rest ih =>
    rw [List.filterMap_cons]
    by_cases h1 : s <+: e.1
    · have hne : e.1 ≠ q := fun hh => hs (hh ▸ h1)
      have hne2 : (d ++ e.1.drop s.length) ≠ q := fun hh =>
        hd (hh ▸ List.prefix_append d _)
      rw [renameEntry_pos s d e h1, find_cons, if_neg hne2, ih, find_cons, if_neg hne]
    · by_cases h2 : d <+: e.1
      · have hne : e.1 ≠ q := fun hh => hd (hh ▸ h2)
        rw [renameEntry_drop s d e h1 h2, ih, find_cons, if_neg hne]
      · rw [renameEntry_keep s d e h1 h2, find_cons, find_cons, ih]

theorem find_renamed_dst (s d q : Key) (hdq : d <+: q) :
    ∀ fs : FS, find (fs.filterMap (renameEntry s d)) q = find fs (s ++ q.drop d.length) := by
  intro fs
  obtain ⟨t, rfl⟩ := hdq
  have hdrop : (d ++ t).drop d.length = t := List.drop_left d t
  rw [hdrop]
  induction fs with
  | nil => rfl
  | cons e rest ih =>
    rw [List.filterMap_cons]
    by_cases h1 : s <+: e.1
    · obtain ⟨u, hu⟩ := h1
      have h1' : s <+: e.1 := ⟨u, hu⟩
      have hudrop : e.1.drop s.length = u := by
        rw [← hu]
        exact List.drop_left s u
      rw [renameEntry_pos s d e h1', find_cons, find_cons, hudrop]
      by_cases hut : u = t
      · subst hut
        rw [if_pos rfl, if_pos (by rw [← hu])]
      · rw [if_neg (fun hh => hut (List.append_cancel_left hh)),
          if_neg (fun hh => hut (List.append_cancel_left (by rw [← hu] at hh; exact hh.symm)).symm),
          ih]
    · by_cases h2 : d <+: e.1
      · have hne : e.1 ≠ s ++ t := fun hh => h1 (hh ▸ List.prefix_append s t)
        rw [renameEntry_drop s d e h1 h2, ih, find_cons, if_neg hne]
      · have hne1 : e.1 ≠ d ++ t := fun hh => h2 (hh ▸ List.prefix_append d t)
        have hne2 : e.1 ≠ s ++ t := fun hh => h1 (hh ▸ List.prefix_append s t)
        rw [renameEntry_keep s d e h1 h2, find_cons, find_cons, if_neg hne1, if_neg hne2, ih]

theorem find_renamed_src (s d q : Key) (hsq : s <+: q) (hdq : ¬ d <+: q) :
    ∀ fs : FS, find (fs.filterMap (renameEntry s d)) q = none := by
  intro fs
  induction fs with
  | nil => rfl
  | cons e rest ih =>
    rw [List.filterMap_cons]
    by_cases h1 : s <+: e.1
    · rw [renameEntry_pos s d e h1, find_cons,
        if_neg (fun hh => hdq (by rw [← hh]; exact List.prefix_append d _))]
      exact ih
    · by_cases h2 : d <+: e.1
      · rw [renameEntry_drop s d e h1 h2]
        exact ih
      · have hne : e.1 ≠ q := fun hh => h1 (hh ▸ hsq)
        rw [renameEntry_keep s d e h1 h2, find_cons, if_neg hne]
        exact ih

end FS

/-! ## General fold lemmas -/

theorem foldl_append_eq {α β : Type} (g : β → List α) :
    ∀ (l : List β) (acc : List α),
      l.foldl (fun cs e => cs ++ g e) acc = acc ++ (l.map g).flatten := by
  intro l
  induction l with
  | nil => simp
  | cons e t ih =>
    intro acc
    rw [List.foldl_cons, ih]
    simp

/-! ## `detectConflicts` lemmas -/

namespace DeployManager

theorem detect_eq_flatten (bundle : DeploymentBundle) (cfg : Config) :
    detectConflicts bundle cfg =
      (bundle.apps.map (appConflicts bundle.createdAt cfg.apps)).flatten := by
  unfold detectConflicts
  rw [foldl_append_eq]
  simp

theorem mem_appConflicts_iff (t : Nat) (apps : List (String × AppConfig))
    (e : String × AppConfig) (c : Conflict) :
    c ∈ appConflicts t apps e ↔
      ∃ cur, lookupApp apps e.1 = some cur ∧
        ((t < cur.lastSynced ∧
          c = { appName := e.1, message := "local configuration is newer than bundle" }) ∨
         (cur.paths.length ≠ e.2.paths.length ∧
          c = { appName := e.1, message := "path count differs" })) := by
  unfold appConflicts
  cases h : lookupApp apps e.1 with
  | none => simp
  | some cur =>
    by_cases h₁ : t < cur.lastSynced <;> by_cases h₂ : cur.paths.length = e.2.paths.length <;>
      simp [h₁, h₂]

theorem appConflicts_eq_nil_iff (t : Nat) (apps : List (String × AppConfig))
    (e : String × AppConfig) :
    appConflicts t apps e = [] ↔
      ∀ cur, lookupApp apps e.1 = some cur →
        cur.lastSynced ≤ t ∧ cur.paths.length = e.2.paths.length := by
  unfold appConflicts
  cases h : lookupApp apps e.1 with
  | none => simp
  | some cur =>
    by_cases h₁ : t < cur.lastSynced <;> by_cases h₂ : cur.paths.length = e.2.paths.length <;>
      simp [h₁, h₂, Nat.not_lt]
    · omega

end DeployManager

/-! ## Claim C8 — conflict detection -/

/-- C8: `detectConflicts` flags a conflict for an application exactly when
the app is in both the bundle and the registry and either the local
`lastSynced` is strictly after the bundle's creation time or the path
counts differ; consequently the conflict list is empty precisely when
every shared app has `lastSynced` at or before the creation time and
equal path counts. -/
theorem claimC8_detect_conflicts (bundle : DeploymentBundle) (cfg : Config) :
    (∀ a : String,
      ((∃ c ∈ DeployManager.detectConflicts bundle cfg, c.appName = a) ↔
       (∃ e ∈ bundle.apps, e.1 = a ∧
         ∃ cur, DeployManager.lookupApp cfg.apps a = some cur ∧
           (bundle.createdAt < cur.lastSynced ∨ cur.paths.length ≠ e.2.paths.length)))) ∧
    (DeployManager.detectConflicts bundle cfg = [] ↔
      ∀ e ∈ bundle.apps, ∀ cur, DeployManager.lookupApp cfg.apps e.1 = some cur →
        cur.lastSynced ≤ bundle.createdAt ∧ cur.paths.length = e.2.paths.length) := by
  constructor
  · intro a
    rw [DeployManager.detect_eq_flatten]
    constructor
    · rintro ⟨c, hc, rfl⟩
      rw [List.mem_flatten] at hc
      obtain ⟨l, hl, hcl⟩ := hc
      rw [List.mem_map] at hl
      obtain ⟨e, he, rfl⟩ := hl
      rw [DeployManager.mem_appConflicts_iff] at hcl
      obtain ⟨cur, hcur, hcase⟩ := hcl
      rcases hcase with ⟨hlt, rfl⟩ | ⟨hne, rfl⟩
      · exact ⟨e, he, rfl, cur, hcur, Or.inl hlt⟩
      · exact ⟨e, he, rfl, cur, hcur, Or.inr hne⟩
    · rintro ⟨e, he, rfl, cur, hcur, hcase⟩
      rcases hcase with hlt | hne
      · refine ⟨{ appName := e.1, message := "local configuration is newer than bundle" },
          ?_, rfl⟩
        rw [List.mem_flatten]
        refine ⟨_, List.mem_map_of_mem _ he, ?_⟩
        rw [DeployManager.mem_appConflicts_iff]
        exact ⟨cur, hcur, Or.inl ⟨hlt, rfl⟩⟩
      · refine ⟨{ appName := e.1, message := "path count differs" }, ?_, rfl⟩
        rw [List.mem_flatten]
        refine ⟨_, List.mem_map_of_mem _ he, ?_⟩
        rw [DeployManager.mem_appConflicts_iff]
        exact ⟨cur, hcur, Or.inr ⟨hne, rfl⟩⟩
  · rw [DeployManager.detect_eq_flatten, List.flatten_eq_nil_iff]
    constructor
    · intro h e he cur hcur
      have := h _ (List.mem_map_of_mem _ he)
      rw [DeployManager.appConflicts_eq_nil_iff] at this
      exact this cur hcur
    · intro h l hl
      rw [List.mem_map] at hl
      obtain ⟨e, he, rfl⟩ := hl
      rw [DeployManager.appConflicts_eq_nil_iff]
      exact h e he

/-! ## Claim C3 — unsync never touches a source that is not a correct
symlink -/

/-- C3: when the source is not currently a correct symlink to the store
target, `unsyncPath` returns success and leaves the filesystem (source
included) completely unchanged. -/
theorem claimC3_unsync_safety (m : SymlinkManager) (fs : FS) (p : ConfigPath)
    (h : SymlinkManager.isCorrectSymlink fs (expandPath m.homeDir p.source)
          (joinG m.storeDir p.destination) = false) :
    m.unsyncPath fs p = (none, fs) := by
  unfold SymlinkManager.unsyncPath
  simp [h]

def mW : SymlinkManager :=
  { homeDir := "/home/u", storeDir := "/store", backupDir := "/bak"
    dryRun := false, verbose := false, now := 7 }

def pGit : ConfigPath :=
  { source := "~/.gitconfig", destination := ".gitconfig", type := .file
    required := true, backedUp := false, synced := false, syncedAt := none }

def fsGit : FS := [(pkey "/home/u/.gitconfig", .file (.raw "[user]"))]

theorem claimC3_witness :
    (SymlinkManager.isCorrectSymlink fsGit (expandPath mW.homeDir pGit.source)
       (joinG mW.storeDir pGit.destination) = false) ∧
    mW.unsyncPath fsGit pGit = (none, fsGit) :=
  ⟨by decide, claimC3_unsync_safety mW fsGit pGit (by decide)⟩

/-! ## Claim C10 — backup is a no-op on missing or symlinked sources -/

/-- C10: `BackupPath` returns success without writing anything (no
snapshot, no metadata sidecar) whenever the expanded source does not
exist or is a symlink. -/
theorem claimC10_backup_noop (m : BackupManager) (appName : String) (p : ConfigPath)
    (fs : FS)
    (h : fs.pathExistsP (expandPath m.homeDir p.source) = false ∨
         fs.isSymlinkP (expandPath m.homeDir p.source) = true) :
    m.backupPathOp appName p fs = (none, fs) := by
  unfold BackupManager.backupPathOp
  rcases h with h | h
  · simp [h]
  · by_cases he : fs.pathExistsP (expandPath m.homeDir p.source) = false
    · simp [he]
    · simp [he, h]

def mB : BackupManager :=
  { backupDir := "/bak", homeDir := "/home/u", verbose := false, now := 3 }

def pVim : ConfigPath :=
  { source := "~/.vimrc", destination := ".vimrc", type := .file
    required := false, backedUp := false, synced := false, syncedAt := none }

def fsLink : FS :=
  [(pkey "/home/u/.vimrc", .symlink "/store/.vimrc"),
   (pkey "/store/.vimrc", .file (.raw "set nocompatible"))]

theorem claimC10_witness :
    (FS.isSymlinkP fsLink (expandPath mB.homeDir pVim.source) = true) ∧
    mB.backupPathOp "app" pVim fsLink = (none, fsLink) :=
  ⟨by decide, claimC10_backup_noop mB "app" pVim fsLink (Or.inr (by decide))⟩

/-! ## Claim C6 — archive path-traversal guard -/

def tarGood : TarEntry := { name := "files/a.txt", typeflag := .reg, content := "x" }

def tarEvil : TarEntry := { name := "../../etc/passwd", typeflag := .reg, content := "y" }

/-- C6 counterexample: an archive whose second entry escapes the target
directory is rejected with the invalid-path error, but the first entry
has already been written to disk — so "no files from the archive are
written" fails for archives where a good entry precedes the traversal
entry. -/
theorem claimC6_counterexample :
    (DeployManager.extractTarGz [tarGood, tarEvil] "/tmp/import" []).1 =
      some "invalid path in archive: ../../etc/passwd" ∧
    FS.findP (DeployManager.extractTarGz [tarGood, tarEvil] "/tmp/import" []).2
      "/tmp/import/files/a.txt" = some (.file (.raw "x")) := by
  decide

/-- C6 (amended): extraction fails with the invalid-path error at the
first entry whose resolved path escapes the target directory, aborting
there: the filesystem is exactly the state produced by the preceding
entries, so nothing from the offending entry or any later entry is
written (entries before it remain extracted). -/
theorem claimC6_amended (pre : List TarEntry) (bad : TarEntry) (rest : List TarEntry)
    (targetDir : String) (fs fs₁ : FS)
    (hpre : DeployManager.extractTarGz pre targetDir fs = (none, fs₁))
    (hbad : strHasPrefix (joinG targetDir bad.name) (clean targetDir ++ "/") = false) :
    DeployManager.extractTarGz (pre ++ bad :: rest) targetDir fs =
      (some ("invalid path in archive: " ++ bad.name), fs₁) := by
  induction pre generalizing fs with
  | nil =>
    unfold DeployManager.extractTarGz at hpre
    obtain rfl : fs = fs₁ := by
      simpa using congrArg Prod.snd hpre
    rw [List.nil_append]
    unfold DeployManager.extractTarGz
    simp [hbad]
  | cons h t ih =>
    rw [List.cons_append]
    unfold DeployManager.extractTarGz at hpre ⊢
    by_cases hg : strHasPrefix (joinG targetDir h.name) (clean targetDir ++ "/") = false
    · rw [if_pos hg] at hpre
      exact absurd (congrArg Prod.fst hpre) (by simp)
    · rw [if_neg hg] at hpre ⊢
      rcases hstep : (match h.typeflag with
          | .dir => fs.mkdirAllP (joinG targetDir h.name)
          | .reg =>
            (match fs.mkdirAllP (dirG (joinG targetDir h.name)) with
             | (some e, f) => (some e, f)
             | (none, f) =>
               match f.findP (joinG targetDir h.name) with
               | some .dir => (some ("open " ++ (joinG targetDir h.name) ++ ": is a directory"), f)
               | _ => (none, f.insertP (joinG targetDir h.name) (.file (.raw h.content))))
          | .other => (none, fs)) with ⟨r, f⟩
      rw [hstep] at hpre ⊢
      cases r with
      | some e => exact absurd (congrArg Prod.fst hpre) (by simp)
      | none => exact ih f hpre

theorem claimC6_amended_witness :
    DeployManager.extractTarGz [tarGood, tarEvil] "/tmp/import" [] =
      (some ("invalid path in archive: " ++ tarEvil.name),
       (DeployManager.extractTarGz [tarGood] "/tmp/import" []).2) :=
  claimC6_amended [tarGood] tarEvil [] "/tmp/import" []
    (DeployManager.extractTarGz [tarGood] "/tmp/import" []).2 (by decide) (by decide)

/-! ## Lemmas about the sync state machine -/

namespace SymlinkManager

/-- `handleMissingPath` succeeds exactly on optional paths. -/
theorem handleMissingPath_none_iff (s : String) (p : ConfigPath) :
    handleMissingPath s p = none ↔ p.required = false := by
  cases hr : p.required <;> simp [handleMissingPath, hr]

/-- `handleExistingSource` never changes the identifying fields of the
path record (it at most sets `backedUp`). -/
theorem handleExistingSource_fields (m : SymlinkManager) (fs : FS) (s st : String)
    (p : ConfigPath) (r : Option String) (f : FS) (p' : ConfigPath)
    (h : m.handleExistingSource fs s st p = (r, f, p')) :
    p'.source = p.source ∧ p'.destination = p.destination ∧ p'.required = p.required := by
  unfold handleExistingSource at h
  by_cases he : fs.pathExistsP s = false
  · rw [if_pos he] at h
    obtain rfl : p = p' := congrArg (fun x => x.2.2) h
    exact ⟨rfl, rfl, rfl⟩
  · rw [if_neg he] at h
    by_cases hsym : fs.isSymlinkP s
    · rw [if_pos hsym] at h
      rcases hrem : m.removeExistingSymlink fs s with ⟨rr, rf⟩
      simp only [hrem] at h
      obtain rfl : p = p' := congrArg (fun x => x.2.2) h
      exact ⟨rfl, rfl, rfl⟩
    · rw [if_neg (by simpa using hsym)] at h
      unfold moveSourceToStore at h
      by_cases hdry : m.dryRun
      · rw [if_pos hdry] at h
        obtain rfl : p = p' := congrArg (fun x => x.2.2) h
        exact ⟨rfl, rfl, rfl⟩
      · rw [if_neg hdry] at h
        rcases hmv : ((m.backupManager.backupPathOp "temp" p fs).2.renameOp s st) with ⟨rr, rf⟩
        simp only [hmv] at h
        cases rr with
        | some e =>
          obtain rfl : p = p' := congrArg (fun x => x.2.2) h
          exact ⟨rfl, rfl, rfl⟩
        | none =>
          obtain rfl : p.markBackedUp = p' := congrArg (fun x => x.2.2) h
          exact ⟨rfl, rfl, rfl⟩

/-- Creating the symlink makes `isCorrectSymlink` hold, as long as the
store target is an absolute path. -/
theorem isCorrectSymlink_insert (fs : FS) (src store : String)
    (habs : isAbsG store = true) :
    isCorrectSymlink (fs.insertP src (.symlink store)) src store = true := by
  unfold isCorrectSymlink FS.isSymlinkP FS.readlinkP FS.findP
  rw [FS.insertP, FS.find_insertK]
  simp [habs]

/-- Characterization of a successful `syncPath` outside dry-run: the
source ends up a correct symlink to the store target, or the call was the
missing-optional no-op and both source and store are (still) absent. -/
theorem syncPath_ok_cases (m : SymlinkManager) (fs : FS) (p : ConfigPath)
    (fs' : FS) (p' : ConfigPath)
    (hdry : m.dryRun = false)
    (habs : isAbsG (joinG m.storeDir p.destination) = true)
    (h : m.syncPath fs p = (none, fs', p')) :
    isCorrectSymlink fs' (expandPath m.homeDir p.source)
      (joinG m.storeDir p.destination) = true ∨
    (fs'.pathExistsP (expandPath m.homeDir p.source) = false ∧
     fs'.pathExistsP (joinG m.storeDir p.destination) = false ∧
     p.required = false) := by
  unfold syncPath at h
  by_cases hc : isCorrectSymlink fs (expandPath m.homeDir p.source)
      (joinG m.storeDir p.destination)
  · rw [if_pos hc] at h
    obtain rfl : fs = fs' := congrArg (fun x => x.2.1) h
    exact Or.inl hc
  · rw [if_neg hc] at h
    rcases h1 : m.ensureStoreDirectory fs (joinG m.storeDir p.destination) with ⟨r1, f1⟩
    simp only [h1] at h
    cases r1 with
    | some e => exact absurd (congrArg (fun x => x.1) h) (by simp)
    | none =>
      rcases h2 : m.handleExistingSource f1 (expandPath m.homeDir p.source)
          (joinG m.storeDir p.destination) p with ⟨r2, f2, p2⟩
      simp only [h2] at h
      cases r2 with
      | some e => exact absurd (congrArg (fun x => x.1) h) (by simp)
      | none =>
        replace h : (if f2.pathExistsP (expandPath m.homeDir p.source) = false ∧
              f2.pathExistsP (joinG m.storeDir p.destination) = false then
            (handleMissingPath (expandPath m.homeDir p.source) p2, f2, p2)
          else
            ((m.createFinalSymlink f2 (expandPath m.homeDir p.source)
                (joinG m.storeDir p.destination)).1,
             (m.createFinalSymlink f2 (expandPath m.homeDir p.source)
                (joinG m.storeDir p.destination)).2, p2)) = (none, fs', p') := h
        by_cases hmiss : (f2.pathExistsP (expandPath m.homeDir p.source) = false ∧
            f2.pathExistsP (joinG m.storeDir p.destination) = false)
        · rw [if_pos hmiss] at h
          obtain rfl : f2 = fs' := congrArg (fun x => x.2.1) h
          have hmp : handleMissingPath (expandPath m.homeDir p.source) p2 = none :=
            congrArg (fun x => x.1) h
          have hreq : p2.required = false := (handleMissingPath_none_iff _ _).mp hmp
          have hfields := handleExistingSource_fields m f1 _ _ p _ _ _ h2
          exact Or.inr ⟨hmiss.1, hmiss.2, hfields.2.2 ▸ hreq⟩
        · rw [if_neg hmiss] at h
          rcases h3 : m.createFinalSymlink f2 (expandPath m.homeDir p.source)
              (joinG m.storeDir p.destination) with ⟨r3, f3⟩
          simp only [h3] at h
          obtain rfl : f3 = fs' := congrArg (fun x => x.2.1) h
          have hr3 : r3 = none := congrArg (fun x => x.1) h
          subst hr3
          left
          unfold createFinalSymlink at h3
          rw [if_neg (by simp [hdry])] at h3
          unfold createSymlink at h3
          rcases h4 : FS.mkdirAllP f2 (dirG (expandPath m.homeDir p.source)) with ⟨r4, f4⟩
          simp only [h4] at h3
          cases r4 with
          | some e => exact absurd (congrArg (fun x => x.1) h3) (by simp)
          | none =>
            unfold FS.symlinkOp at h3
            rcases h5 : f4.findP (expandPath m.homeDir p.source) with _ | n
            · simp only [h5] at h3
              obtain rfl : f4.insertP (expandPath m.homeDir p.source)
                  (.symlink (joinG m.storeDir p.destination)) = f3 :=
                congrArg (fun x => x.2) h3
              exact isCorrectSymlink_insert f4 _ _ habs
            · simp only [h5] at h3
              exact absurd (congrArg (fun x => x.1) h3) (by simp)

/-- `syncPath` never changes the identifying fields of the path record. -/
theorem syncPath_fields (m : SymlinkManager) (fs : FS) (p : ConfigPath)
    (r : Option String) (fs' : FS) (p' : ConfigPath)
    (h : m.syncPath fs p = (r, fs', p')) :
    p'.source = p.source ∧ p'.destination = p.destination ∧ p'.required = p.required := by
  unfold syncPath at h
  by_cases hc : isCorrectSymlink fs (expandPath m.homeDir p.source)
      (joinG m.storeDir p.destination)
  · rw [if_pos hc] at h
    obtain rfl : p = p' := congrArg (fun x => x.2.2) h
    exact ⟨rfl, rfl, rfl⟩
  · rw [if_neg hc] at h
    rcases h1 : m.ensureStoreDirectory fs (joinG m.storeDir p.destination) with ⟨r1, f1⟩
    simp only [h1] at h
    cases r1 with
    | some e =>
      obtain rfl : p = p' := congrArg (fun x => x.2.2) h
      exact ⟨rfl, rfl, rfl⟩
    | none =>
      rcases h2 : m.handleExistingSource f1 (expandPath m.homeDir p.source)
          (joinG m.storeDir p.destination) p with ⟨r2, f2, p2⟩
      simp only [h2] at h
      have hf := handleExistingSource_fields m f1 _ _ p _ _ _ h2
      cases r2 with
      | some e =>
        obtain rfl : p2 = p' := congrArg (fun x => x.2.2) h
        exact hf
      | none =>
        replace h : (if f2.pathExistsP (expandPath m.homeDir p.source) = false ∧
              f2.pathExistsP (joinG m.storeDir p.destination) = false then
            (handleMissingPath (expandPath m.homeDir p.source) p2, f2, p2)
          else
            ((m.createFinalSymlink f2 (expandPath m.homeDir p.source)
                (joinG m.storeDir p.destination)).1,
             (m.createFinalSymlink f2 (expandPath m.homeDir p.source)
                (joinG m.storeDir p.destination)).2, p2)) = (r, fs', p') := h
        by_cases hmiss : (f2.pathExistsP (expandPath m.homeDir p.source) = false ∧
            f2.pathExistsP (joinG m.storeDir p.destination) = false)
        · rw [if_pos hmiss] at h
          obtain rfl : p2 = p' := congrArg (fun x => x.2.2) h
          exact hf
        · rw [if_neg hmiss] at h
          obtain rfl : p2 = p' := congrArg (fun x => x.2.2) h
          exact hf

/-- A source that is already a correct symlink makes `syncPath` an exact
no-op. -/
theorem syncPath_noop (m : SymlinkManager) (fs : FS) (p : ConfigPath)
    (hc : isCorrectSymlink fs (expandPath m.homeDir p.source)
        (joinG m.storeDir p.destination) = true) :
    m.syncPath fs p = (none, fs, p) := by
  unfold syncPath
  simp [hc]

/-- The missing-optional case of `syncPath` is an exact no-op when
re-ensuring the store directory changes nothing. -/
theorem syncPath_missing_noop (m : SymlinkManager) (fs : FS) (p : ConfigPath)
    (hdry : m.dryRun = false)
    (hnc : isCorrectSymlink fs (expandPath m.homeDir p.source)
        (joinG m.storeDir p.destination) = false)
    (hmk : fs.mkdirAllP (dirG (joinG m.storeDir p.destination)) = (none, fs))
    (hs : fs.pathExistsP (expandPath m.homeDir p.source) = false)
    (hst : fs.pathExistsP (joinG m.storeDir p.destination) = false)
    (hreq : p.required = false) :
    m.syncPath fs p = (none, fs, p) := by
  unfold syncPath
  rw [if_neg (by simp [hnc])]
  have h1 : m.ensureStoreDirectory fs (joinG m.storeDir p.destination) = (none, fs) := by
    unfold ensureStoreDirectory
    rw [if_neg (by simp [hdry]), hmk]
  simp only [h1]
  have h2 : m.handleExistingSource fs (expandPath m.homeDir p.source)
      (joinG m.storeDir p.destination) p = (none, fs, p) := by
    unfold handleExistingSource
    rw [if_pos hs]
  simp only [h2]
  rw [if_pos ⟨hs, hst⟩]
  unfold handleMissingPath
  rw [if_neg (by simp [hreq])]

end SymlinkManager

/-- Marking synced twice with the same clock value is the same as once. -/
theorem ConfigPath.markSynced_idem (p : ConfigPath) (t : Nat) :
    (p.markSynced t).markSynced t = p.markSynced t := rfl

/-! ## Claim C1 — the synced flag versus the symlink invariant -/

def pZsh : ConfigPath :=
  { source := "~/.zshrc", destination := ".zshrc", type := .file
    required := false, backedUp := false, synced := false, syncedAt := none }

def appZsh : AppConfig :=
  { name := "zsh", displayName := "Zsh", paths := [pZsh], enabled := true, lastSynced := 0 }

/-- C1 counterexample: syncing an app whose single optional path exists
neither at the source nor in the store succeeds as a no-op and still
marks `synced = true`, although the source is not a symlink at all — so
"`synced` is true only if the source is a correct symlink to the store
target" fails on the code. -/
theorem claimC1_counterexample :
    (mW.syncApp [] appZsh).1 = none ∧
    ((mW.syncApp [] appZsh).2.2.paths.map (fun q => q.synced)) = [true] ∧
    FS.isSymlinkP (mW.syncApp [] appZsh).2.1 (expandPath mW.homeDir pZsh.source) = false := by
  decide

/-- C1 (amended): after a successful non-dry-run sync of a single-path
app, the path is marked `synced = true`, and the expanded source is a
symlink resolving to the store target **unless** the call was the
missing-optional no-op (neither source nor store copy exists and the
path is not required), in which case `synced` is set anyway. -/
theorem claimC1_amended (m : SymlinkManager) (fs : FS) (app : AppConfig) (p : ConfigPath)
    (fs' : FS) (app' : AppConfig)
    (hp : app.paths = [p]) (hen : app.isEnabled = true)
    (hdry : m.dryRun = false)
    (habs : isAbsG (joinG m.storeDir p.destination) = true)
    (h : m.syncApp fs app = (none, fs', app')) :
    ∃ p', app'.paths = [p'] ∧ p'.synced = true ∧
      (SymlinkManager.isCorrectSymlink fs' (expandPath m.homeDir p.source)
         (joinG m.storeDir p.destination) = true ∨
       (fs'.pathExistsP (expandPath m.homeDir p.source) = false ∧
        fs'.pathExistsP (joinG m.storeDir p.destination) = false ∧
        p.required = false)) := by
  unfold SymlinkManager.syncApp at h
  rw [if_neg (by simp [hen]), hp] at h
  simp only [List.foldl_cons, List.foldl_nil] at h
  rcases hs : m.syncPath fs p with ⟨r, fs₁, p₁⟩
  simp only [hs] at h
  cases r with
  | some e => simp at h
  | none =>
    simp only [hdry, if_false, List.nil_append] at h
    obtain rfl : fs₁ = fs' := congrArg (fun x => x.2.1) h
    obtain rfl : { app with paths := [p₁.markSynced m.now] } = app' :=
      congrArg (fun x => x.2.2) h
    refine ⟨p₁.markSynced m.now, rfl, rfl, ?_⟩
    exact SymlinkManager.syncPath_ok_cases m fs p _ p₁ hdry habs hs

theorem claimC1_amended_witness :
    (mW.syncApp [] appZsh = (none, (mW.syncApp [] appZsh).2.1, (mW.syncApp [] appZsh).2.2)) ∧
    ∃ p', (mW.syncApp [] appZsh).2.2.paths = [p'] ∧ p'.synced = true ∧
      (SymlinkManager.isCorrectSymlink (mW.syncApp [] appZsh).2.1
         (expandPath mW.homeDir pZsh.source) (joinG mW.storeDir pZsh.destination) = true ∨
       ((mW.syncApp [] appZsh).2.1.pathExistsP (expandPath mW.homeDir pZsh.source) = false ∧
        (mW.syncApp [] appZsh).2.1.pathExistsP (joinG mW.storeDir pZsh.destination) = false ∧
        pZsh.required = false)) :=
  ⟨by decide,
   claimC1_amended mW [] appZsh pZsh (mW.syncApp [] appZsh).2.1 (mW.syncApp [] appZsh).2.2
     (by decide) (by decide) (by decide) (by decide) (by decide)⟩

/-! ## Claim C4 — idempotence of sync -/

def pStoreSelf : ConfigPath :=
  { source := "/store", destination := "x", type := .directory
    required := false, backedUp := false, synced := false, syncedAt := none }

def appStoreSelf : AppConfig :=
  { name := "s", displayName := "S", paths := [pStoreSelf], enabled := true, lastSynced := 0 }

def fsC4 : FS := [(pkey "/store", .symlink "/real"), (pkey "/real", .dir)]

/-- C4 counterexample: when the tracked source is a foreign symlink lying
on the store's parent-directory chain, the first sync succeeds (removing
the symlink, missing-optional no-op) but the second sync is not a no-op:
it mutates the filesystem again (re-creating the store directory and
taking a fresh temp backup) and then fails, because moving the source to
the store would place the store target inside the source itself
(`rename` rejects a destination under the source).  So "the second call
performs zero filesystem mutations" fails on the code. -/
theorem claimC4_counterexample :
    (mW.syncApp fsC4 appStoreSelf).1 = none ∧
    ((mW.syncApp (mW.syncApp fsC4 appStoreSelf).2.1 (mW.syncApp fsC4 appStoreSelf).2.2).2.1 ≠
      (mW.syncApp fsC4 appStoreSelf).2.1) ∧
    ((mW.syncApp (mW.syncApp fsC4 appStoreSelf).2.1 (mW.syncApp fsC4 appStoreSelf).2.2).1 ≠
      none) := by
  decide

/-- C4 (amended): calling sync twice in a row on a single-path app with
no intervening filesystem change yields `synced == true` both times, and
the second call is an exact no-op (zero filesystem mutations), provided
the store's parent-directory chain still re-creates as a no-op after the
first call (which can fail only when the first call's foreign-symlink
removal or move took a component of that chain away). -/
theorem claimC4_amended (m : SymlinkManager) (fs : FS) (app : AppConfig) (p : ConfigPath)
    (fs' : FS) (app' : AppConfig)
    (hp : app.paths = [p]) (hen : app.isEnabled = true)
    (hdry : m.dryRun = false)
    (habs : isAbsG (joinG m.storeDir p.destination) = true)
    (h : m.syncApp fs app = (none, fs', app'))
    (hmk : fs'.mkdirAllP (dirG (joinG m.storeDir p.destination)) = (none, fs')) :
    m.syncApp fs' app' = (none, fs', app') ∧ ∀ q ∈ app'.paths, q.synced = true := by
  unfold SymlinkManager.syncApp at h
  rw [if_neg (by simp [hen]), hp] at h
  simp only [List.foldl_cons, List.foldl_nil] at h
  rcases hs : m.syncPath fs p with ⟨r, fs₁, p₁⟩
  simp only [hs] at h
  cases r with
  | some e => simp at h
  | none =>
    simp only [hdry, if_false, List.nil_append] at h
    obtain rfl : fs₁ = fs' := congrArg (fun x => x.2.1) h
    obtain rfl : { app with paths := [p₁.markSynced m.now] } = app' :=
      congrArg (fun x => x.2.2) h
    have hf₁ := SymlinkManager.syncPath_fields m fs p none _ p₁ hs
    set pm := p₁.markSynced m.now with hpm
    have hfm : pm.source = p.source ∧ pm.destination = p.destination ∧
        pm.required = p.required := hf₁
    have hsecond : m.syncPath fs₁ pm = (none, fs₁, pm) := by
      rcases SymlinkManager.syncPath_ok_cases m fs p _ p₁ hdry habs hs with hcor | hmiss
      · apply SymlinkManager.syncPath_noop
        rw [hfm.1, hfm.2.1]
        exact hcor
      · by_cases hc2 : SymlinkManager.isCorrectSymlink fs₁
            (expandPath m.homeDir pm.source) (joinG m.storeDir pm.destination) = true
        · exact SymlinkManager.syncPath_noop m fs₁ pm hc2
        · apply SymlinkManager.syncPath_missing_noop m fs₁ pm hdry
          · simpa using hc2
          · rw [hfm.2.1]
            exact hmk
          · rw [hfm.1]
            exact hmiss.1
          · rw [hfm.2.1]
            exact hmiss.2.1
          · rw [hfm.2.2]
            exact hmiss.2.2
    have hen' : app.enabled = true := by simpa [AppConfig.isEnabled] using hen
    constructor
    · unfold SymlinkManager.syncApp
      rw [if_neg (by simp [AppConfig.isEnabled, hen'])]
      simp only [List.foldl_cons, List.foldl_nil, hsecond, hdry, List.nil_append]
      simp [hpm, ConfigPath.markSynced_idem]
    · intro q hq
      simp only [List.mem_singleton] at hq
      subst hq
      rfl

def appGit : AppConfig :=
  { name := "git", displayName := "Git", paths := [pGit], enabled := true, lastSynced := 0 }

theorem claimC4_amended_witness :
    (mW.syncApp (mW.syncApp fsGit appGit).2.1 (mW.syncApp fsGit appGit).2.2 =
       (none, (mW.syncApp fsGit appGit).2.1, (mW.syncApp fsGit appGit).2.2)) ∧
    ∀ q ∈ (mW.syncApp fsGit appGit).2.2.paths, q.synced = true :=
  claimC4_amended mW fsGit appGit pGit
    (mW.syncApp fsGit appGit).2.1 (mW.syncApp fsGit appGit).2.2
    (by decide) (by decide) (by decide) (by decide) (by decide) (by decide)

/-! ## Claim C5 — required-path enforcement -/

/-- C5: when nothing is present at the expanded source or at the store
target (and the store's parent chain is creatable without touching
either), `syncPath` fails with the required-path-missing error exactly
when the path is required; an optional path succeeds with the path record
untouched, the only filesystem effect being the creation of the store's
parent directories. -/
theorem claimC5_required_path (m : SymlinkManager) (fs : FS) (p : ConfigPath)
    (hdry : m.dryRun = false)
    (h1 : fs.findP (expandPath m.homeDir p.source) = none)
    (h2 : fs.findP (joinG m.storeDir p.destination) = none)
    (hq1 : pkey (expandPath m.homeDir p.source) ∉
      FS.chainOf (pkey (dirG (joinG m.storeDir p.destination))))
    (hq2 : pkey (joinG m.storeDir p.destination) ∉
      FS.chainOf (pkey (dirG (joinG m.storeDir p.destination))))
    (hmkOk : (fs.mkdirAllP (dirG (joinG m.storeDir p.destination))).1 = none) :
    m.syncPath fs p =
      (if p.required then
         some ("required path does not exist: " ++ expandPath m.homeDir p.source)
       else none,
       (fs.mkdirAllP (dirG (joinG m.storeDir p.destination))).2, p) := by
  have hnc : SymlinkManager.isCorrectSymlink fs (expandPath m.homeDir p.source)
      (joinG m.storeDir p.destination) = false := by
    unfold SymlinkManager.isCorrectSymlink FS.isSymlinkP
    rw [h1]
    simp
  rcases hmk : fs.mkdirAllP (dirG (joinG m.storeDir p.destination)) with ⟨r1, f1⟩
  obtain rfl : r1 = none := by rw [hmk] at hmkOk; exact hmkOk
  have hf1src : f1.findP (expandPath m.homeDir p.source) = none := by
    have := FS.mkdirAllK_find_outside fs (pkey (dirG (joinG m.storeDir p.destination)))
      (pkey (expandPath m.homeDir p.source)) hq1
    rw [show (fs.mkdirAllK (pkey (dirG (joinG m.storeDir p.destination)))) =
        fs.mkdirAllP (dirG (joinG m.storeDir p.destination)) from rfl, hmk] at this
    exact this.trans h1
  have hf1store : f1.findP (joinG m.storeDir p.destination) = none := by
    have := FS.mkdirAllK_find_outside fs (pkey (dirG (joinG m.storeDir p.destination)))
      (pkey (joinG m.storeDir p.destination)) hq2
    rw [show (fs.mkdirAllK (pkey (dirG (joinG m.storeDir p.destination)))) =
        fs.mkdirAllP (dirG (joinG m.storeDir p.destination)) from rfl, hmk] at this
    exact this.trans h2
  have hex1 : f1.pathExistsP (expandPath m.homeDir p.source) = false := by
    unfold FS.pathExistsP FS.statP
    rw [FS.statK_of_find_none _ _ hf1src]
    rfl
  have hex2 : f1.pathExistsP (joinG m.storeDir p.destination) = false := by
    unfold FS.pathExistsP FS.statP
    rw [FS.statK_of_find_none _ _ hf1store]
    rfl
  unfold SymlinkManager.syncPath
  rw [if_neg (by simp [hnc])]
  have hens : m.ensureStoreDirectory fs (joinG m.storeDir p.destination) = (none, f1) := by
    unfold SymlinkManager.ensureStoreDirectory
    rw [if_neg (by simp [hdry]), hmk]
  simp only [hens]
  have hhes : m.handleExistingSource f1 (expandPath m.homeDir p.source)
      (joinG m.storeDir p.destination) p = (none, f1, p) := by
    unfold SymlinkManager.handleExistingSource
    rw [if_pos hex1]
  simp only [hhes]
  rw [if_pos ⟨hex1, hex2⟩]
  rfl

theorem claimC5_witness :
    mW.syncPath [] pGit =
      (if pGit.required then
         some ("required path does not exist: " ++ expandPath mW.homeDir pGit.source)
       else none,
       (FS.mkdirAllP [] (dirG (joinG mW.storeDir pGit.destination))).2, pGit) :=
  claimC5_required_path mW [] pGit (by decide) (by decide) (by decide) (by decide)
    (by decide) (by decide)

/-! ## Claim C7 — sync's backups land in the `"temp"` namespace -/

namespace BackupManager

section

/- The unifier must not speculatively evaluate the string-level path
functions on symbolic arguments while these proofs reason about the
backup flow, so they are sealed locally. -/
attribute [local irreducible] pkey clean joinG joinG3 joinG4 dirG expandPath
  strReplaceChar splitSlash rawComps renderComps strHasPrefix
  getBackupPath getBackupInfoPath

set_option maxHeartbeats 1000000 in
/-- A successful `saveBackupInfo` writes the sidecar document and
preserves every other existing entry. -/
theorem saveBackupInfo_ok (bm : BackupManager) (bi : BackupInfo) (g f' : FS)
    (h : bm.saveBackupInfo bi g = (none, f')) :
    f'.findP (bm.getBackupInfoPath bi.appName bi.originalPath) =
      some (.file (.info bi)) ∧
    ∀ q : Key, q ≠ pkey (bm.getBackupInfoPath bi.appName bi.originalPath) →
      ∀ n, g.find q = some n → f'.find q = some n := by
  unfold saveBackupInfo at h
  generalize hip : bm.getBackupInfoPath bi.appName bi.originalPath = ip at h ⊢
  rcases hmk : g.mkdirAllP (dirG ip) with ⟨r, f4⟩
  simp only [hmk] at h
  cases r with
  | some e => exact absurd (congrArg (fun x => x.1) h) (by simp)
  | none =>
    obtain rfl : f4.insertP ip (.file (.info bi)) = f' := congrArg (fun x => x.2) h
    have hgrow : FS.growsDirs g f4 := by
      have hg := FS.mkdirAllP_growsDirs g (dirG ip)
      rw [hmk] at hg
      exact hg
    constructor
    · show FS.find _ _ = _
      rw [FS.insertP, FS.find_insertK, if_pos rfl]
    · intro q hq n hn
      show FS.find _ _ = _
      rw [FS.insertP, FS.find_insertK, if_neg (Ne.symm hq)]
      exact FS.growsDirs_find_some hgrow hn

set_option maxHeartbeats 1000000 in
/-- A successful `BackupPath` of an existing regular file under app name
`a` writes the snapshot at `getBackupPath a destination` and the metadata
sidecar at `getBackupInfoPath a source`, with `a` recorded as the owning
app. -/
theorem backupPathOp_creates (bm : BackupManager) (a : String) (p : ConfigPath)
    (fs f' : FS) (c : String)
    (htype : p.type = PathType.file)
    (hsrc : fs.findP (expandPath bm.homeDir p.source) = some (.file (.raw c)))
    (hne : pkey (bm.getBackupInfoPath a (expandPath bm.homeDir p.source)) ≠
           pkey (bm.getBackupPath a p.destination))
    (hb : bm.backupPathOp a p fs = (none, f')) :
    f'.findP (bm.getBackupPath a p.destination) = some (.file (.raw c)) ∧
    f'.findP (bm.getBackupInfoPath a (expandPath bm.homeDir p.source)) =
      some (.file (.info
        { appName := a, originalPath := expandPath bm.homeDir p.source
          backupPath := bm.getBackupPath a p.destination
          createdAt := bm.now, size := c.length, checksum := "sha256:" ++ c })) := by
  have hsrc' : fs.find (pkey (expandPath bm.homeDir p.source)) =
      some (.file (.raw c)) := hsrc
  have hstat : fs.statP (expandPath bm.homeDir p.source) = some (.file (.raw c)) :=
    FS.statK_of_find_file fs _ _ hsrc'
  have hex : fs.pathExistsP (expandPath bm.homeDir p.source) = true := by
    unfold FS.pathExistsP
    rw [hstat]
    rfl
  have hsym : fs.isSymlinkP (expandPath bm.homeDir p.source) = false := by
    unfold FS.isSymlinkP
    rw [show fs.findP (expandPath bm.homeDir p.source) = some (.file (.raw c)) from hsrc]
  have hchk : calculateChecksum fs (expandPath bm.homeDir p.source) =
      some ("sha256:" ++ c) := by
    unfold calculateChecksum
    rw [hstat]
    rfl
  have hsize : calculateSize fs (expandPath bm.homeDir p.source) =
      some c.length := by
    unfold calculateSize
    rw [hstat]
    rfl
  unfold backupPathOp at hb
  generalize hsp : expandPath bm.homeDir p.source = sp at hsrc' hstat hex hsym hchk hsize hne hb ⊢
  generalize hbp : bm.getBackupPath a p.destination = bp at hne hb ⊢
  simp only [hex, hsym, htype, hchk, hsize] at hb
  simp at hb
  rcases hmk1 : fs.mkdirAllP (dirG bp) with ⟨r1, f1⟩
  simp only [hmk1] at hb
  cases r1 with
  | some e => exact absurd (congrArg (fun x => x.1) hb) (by simp)
  | none =>
    have hgrow1 : FS.growsDirs fs f1 := by
      have hg := FS.mkdirAllP_growsDirs fs (dirG bp)
      rw [hmk1] at hg
      exact hg
    have hf1 : f1.find (pkey sp) =
        some (.file (.raw c)) := FS.growsDirs_find_some hgrow1 hsrc'
    have hstat1 : f1.statK (pkey sp) =
        some (.file (.raw c)) := FS.statK_of_find_file f1 _ _ hf1
    simp [hstat1, FS.copyFileK] at hb
    have good : ∀ nd0 : Option FSNode,
        f1.find (pkey bp) = nd0 →
        (nd0 = none ∨ (∃ d', nd0 = some (.file d')) ∨ (∃ t, nd0 = some (.symlink t))) →
        f'.findP bp = some (.file (.raw c)) ∧
        f'.findP (bm.getBackupInfoPath a sp) =
          some (.file (.info
            { appName := a, originalPath := sp, backupPath := bp
              createdAt := bm.now, size := c.length, checksum := "sha256:" ++ c })) := by
      intro nd0 hfd hgood
      have hcp : f1.copyPathOp sp bp = (none, f1.insertK (pkey bp) (.file (.raw c))) := by
        unfold FS.copyPathOp FS.copyPathK
        rw [hstat1]
        unfold FS.copyFileK
        rw [hstat1, hfd]
        rcases hgood with rfl | ⟨d', rfl⟩ | ⟨t, rfl⟩ <;> rfl
      rw [hcp] at hb
      rcases hsv : bm.saveBackupInfo
          { appName := a, originalPath := sp, backupPath := bp
            createdAt := bm.now, size := c.length, checksum := "sha256:" ++ c }
          (f1.insertK (pkey bp) (.file (.raw c))) with ⟨rs, f5⟩
      simp only [hsv] at hb
      cases rs with
      | some e => exact absurd (congrArg (fun x => x.1) hb) (by simp)
      | none =>
        obtain rfl : f5 = f' := congrArg (fun x => x.2) hb
        have hsave := saveBackupInfo_ok bm _ _ _ hsv
        exact ⟨hsave.2 _ (Ne.symm hne) _ (by rw [FS.find_insertK, if_pos rfl]), hsave.1⟩
    rcases hfd : f1.find (pkey bp) with _ | nd
    · exact good none hfd (Or.inl rfl)
    · cases nd with
      | file d' => exact good _ hfd (Or.inr (Or.inl ⟨d', rfl⟩))
      | dir =>
        have hcp : f1.copyPathOp sp bp =
            (some ("open " ++ renderComps true (pkey bp) ++ ": is a directory"), f1) := by
          unfold FS.copyPathOp FS.copyPathK
          rw [hstat1]
          unfold FS.copyFileK
          rw [hstat1, hfd]
        rw [hcp] at hb
        exact absurd (congrArg (fun x => x.1) hb) (by simp)
      | symlink t => exact good _ hfd (Or.inr (Or.inr ⟨t, rfl⟩))

/-- `RestorePath` fails when no snapshot exists at the address derived
from the app name and the destination, leaving the filesystem alone. -/
theorem restorePathOp_missing (bm : BackupManager) (app : String) (q : ConfigPath)
    (g : FS) (h : g.pathExistsP (bm.getBackupPath app q.destination) = false) :
    bm.restorePathOp app q g =
      (some ("backup does not exist: " ++ bm.getBackupPath app q.destination), g) := by
  simp [restorePathOp, h]

/-- `ListBackups` returns the empty list when the app's backup-info
namespace does not exist. -/
theorem listBackups_empty (bm : BackupManager) (app : String) (g : FS)
    (h : g.pathExistsP (joinG3 bm.backupDir "info" app) = false) :
    bm.listBackups app g = .ok [] := by
  simp [listBackups, h]

end

end BackupManager

section

/- Seal the string-level path functions for the sync-level reasoning as
well (see the note in the previous section). -/
attribute [local irreducible] pkey clean joinG joinG3 joinG4 dirG expandPath
  strReplaceChar splitSlash rawComps renderComps strHasPrefix
  BackupManager.getBackupPath BackupManager.getBackupInfoPath

set_option maxHeartbeats 1000000 in
/-- C7: during a sync that moves an existing regular (non-symlink) file
into the store, the synchronizer's backup is keyed by the fixed app id
`"temp"`: the snapshot and its metadata sidecar land at the `"temp"`
addresses (the sidecar records `appName = "temp"`), and any restore or
list keyed by an app name whose derived addresses hold nothing fails to
find a backup (`RestorePath` errors, `ListBackups` is empty). -/
theorem claimC7_temp_namespace (m : SymlinkManager) (p : ConfigPath) (fs f₂ f' : FS)
    (p' : ConfigPath) (c : String)
    (hdry : m.dryRun = false) (htype : p.type = PathType.file)
    (hsrc : fs.findP (expandPath m.homeDir p.source) = some (.file (.raw c)))
    (hb : m.backupManager.backupPathOp "temp" p fs = (none, f₂))
    (hmv : m.moveSourceToStore fs (expandPath m.homeDir p.source)
        (joinG m.storeDir p.destination) p = (none, f', p'))
    (hne : pkey (m.backupManager.getBackupInfoPath "temp" (expandPath m.homeDir p.source)) ≠
           pkey (m.backupManager.getBackupPath "temp" p.destination))
    (hd1 : ¬ pkey (expandPath m.homeDir p.source) <+:
        pkey (m.backupManager.getBackupPath "temp" p.destination))
    (hd2 : ¬ pkey (joinG m.storeDir p.destination) <+:
        pkey (m.backupManager.getBackupPath "temp" p.destination))
    (hd3 : ¬ pkey (expandPath m.homeDir p.source) <+:
        pkey (m.backupManager.getBackupInfoPath "temp" (expandPath m.homeDir p.source)))
    (hd4 : ¬ pkey (joinG m.storeDir p.destination) <+:
        pkey (m.backupManager.getBackupInfoPath "temp" (expandPath m.homeDir p.source))) :
    (f'.findP (m.backupManager.getBackupPath "temp" p.destination) =
       some (.file (.raw c)) ∧
     f'.findP (m.backupManager.getBackupInfoPath "temp" (expandPath m.homeDir p.source)) =
       some (.file (.info
         { appName := "temp", originalPath := expandPath m.homeDir p.source
           backupPath := m.backupManager.getBackupPath "temp" p.destination
           createdAt := m.now, size := c.length, checksum := "sha256:" ++ c }))) ∧
    (∀ (bm : BackupManager) (app : String) (q : ConfigPath) (g : FS),
       g.pathExistsP (bm.getBackupPath app q.destination) = false →
       bm.restorePathOp app q g =
         (some ("backup does not exist: " ++ bm.getBackupPath app q.destination), g)) ∧
    (∀ (bm : BackupManager) (app : String) (g : FS),
       g.pathExistsP (joinG3 bm.backupDir "info" app) = false →
       bm.listBackups app g = .ok []) := by
  refine ⟨?_, fun bm app q g h => BackupManager.restorePathOp_missing bm app q g h,
    fun bm app g h => BackupManager.listBackups_empty bm app g h⟩
  have hcreate := BackupManager.backupPathOp_creates m.backupManager "temp" p fs f₂ c
    htype hsrc hne hb
  unfold SymlinkManager.moveSourceToStore at hmv
  rw [if_neg (by simp [hdry])] at hmv
  simp only [hb] at hmv
  rcases hr : f₂.renameOp (expandPath m.homeDir p.source) (joinG m.storeDir p.destination)
    with ⟨rr, f₃⟩
  simp only [hr] at hmv
  cases rr with
  | some e => exact absurd (congrArg (fun x => x.1) hmv) (by simp)
  | none =>
    obtain rfl : f₃ = f' := congrArg (fun x => x.2.1) hmv
    by_cases hsd : pkey (expandPath m.homeDir p.source) = pkey (joinG m.storeDir p.destination)
    · rcases hfs : f₂.find (pkey (expandPath m.homeDir p.source)) with _ | n
      · have hfs' : f₂.find (pkey (joinG m.storeDir p.destination)) = none := by
          rw [← hsd]
          exact hfs
        have hcomp : f₂.renameOp (expandPath m.homeDir p.source)
            (joinG m.storeDir p.destination) =
            (some ("rename " ++ expandPath m.homeDir p.source ++
              ": no such file or directory"), f₂) := by
          simp [FS.renameOp, hsd, hfs']
        rw [hcomp] at hr
        exact absurd (congrArg (fun x => x.1) hr) (by simp)
      · have hfs' : f₂.find (pkey (joinG m.storeDir p.destination)) = some n := by
          rw [← hsd]
          exact hfs
        have hcomp : f₂.renameOp (expandPath m.homeDir p.source)
            (joinG m.storeDir p.destination) = (none, f₂) := by
          simp [FS.renameOp, hsd, hfs']
        rw [hcomp] at hr
        obtain rfl : f₂ = f₃ := congrArg (fun x => x.2) hr
        exact hcreate
    · have heq := FS.renameOp_ok_eq f₂ (expandPath m.homeDir p.source)
        (joinG m.storeDir p.destination) f₃ hsd hr
      subst heq
      constructor
      · show FS.find _ _ = _
        rw [FS.find_renamed_other _ _ _ hd1 hd2]
        exact hcreate.1
      · show FS.find _ _ = _
        rw [FS.find_renamed_other _ _ _ hd3 hd4]
        exact hcreate.2

end

theorem claimC7_witness :
    (FS.findP (mW.moveSourceToStore fsGit (expandPath mW.homeDir pGit.source)
        (joinG mW.storeDir pGit.destination) pGit).2.1
        (mW.backupManager.getBackupPath "temp" pGit.destination) =
       some (.file (.raw "[user]")) ∧
      FS.findP (mW.moveSourceToStore fsGit (expandPath mW.homeDir pGit.source)
        (joinG mW.storeDir pGit.destination) pGit).2.1
        (mW.backupManager.getBackupInfoPath "temp" (expandPath mW.homeDir pGit.source)) =
       some (.file (.info
         { appName := "temp", originalPath := expandPath mW.homeDir pGit.source
           backupPath := mW.backupManager.getBackupPath "temp" pGit.destination
           createdAt := mW.now, size := "[user]".length, checksum := "sha256:" ++ "[user]" }))) ∧
    (∀ (bm : BackupManager) (app : String) (q : ConfigPath) (g : FS),
       g.pathExistsP (bm.getBackupPath app q.destination) = false →
       bm.restorePathOp app q g =
         (some ("backup does not exist: " ++ bm.getBackupPath app q.destination), g)) ∧
    (∀ (bm : BackupManager) (app : String) (g : FS),
       g.pathExistsP (joinG3 bm.backupDir "info" app) = false →
       bm.listBackups app g = .ok []) :=
  claimC7_temp_namespace mW pGit fsGit
    (mW.backupManager.backupPathOp "temp" pGit fsGit).2
    (mW.moveSourceToStore fsGit (expandPath mW.homeDir pGit.source)
      (joinG mW.storeDir pGit.destination) pGit).2.1
    (mW.moveSourceToStore fsGit (expandPath mW.homeDir pGit.source)
      (joinG mW.storeDir pGit.destination) pGit).2.2
    "[user]" (by decide) (by decide) (by decide) (by decide) (by decide) (by decide)
    (by decide) (by decide) (by decide) (by decide)

/-! ## Claim C9 — deploy: conflict refusal and partial-failure tolerance -/

namespace DeployManager

/-- One pass of the deploy loop adds exactly one app to the combined
deployed/failed tally, whichever branch it takes. -/
theorem deployStep_counts_one (m : DeployManager) (bundleDir : String)
    (acc : List String × List String × FS × ConfigManager) (e : String × AppConfig) :
    (m.deployStep bundleDir acc e).1.length + (m.deployStep bundleDir acc e).2.1.length =
      acc.1.length + acc.2.1.length + 1 := by
  obtain ⟨dep, fail, f0, cm0⟩ := acc
  obtain ⟨an, ac⟩ := e
  unfold deployStep
  rcases hda : (if f0.pathExistsP (joinG3 bundleDir "files" an) then
      m.deployAppFiles ac (joinG3 bundleDir "files" an) f0 else (none, f0)) with ⟨r0, f1⟩
  cases r0 with
  | some err => simp [hda]; omega
  | none =>
    rcases hadd : cm0.addApp ac f1 m.now with e1 | ⟨cm1, f2⟩ <;> simp [hda, hadd] <;> omega

/-- Folding the deploy loop over a list of apps grows the combined
deployed/failed tally by exactly the number of apps: no app is skipped
and no failure aborts the remainder of the loop. -/
theorem foldl_deployStep_counts (m : DeployManager) (bundleDir : String) :
    ∀ (apps : List (String × AppConfig)) (acc : List String × List String × FS × ConfigManager),
      (apps.foldl (m.deployStep bundleDir) acc).1.length +
        (apps.foldl (m.deployStep bundleDir) acc).2.1.length =
      acc.1.length + acc.2.1.length + apps.length := by
  intro apps
  induction apps with
  | nil => intro acc; simp
  | cons e rest ih =>
    intro acc
    rw [List.foldl_cons]
    have h := ih (m.deployStep bundleDir acc e)
    have h1 := deployStep_counts_one m bundleDir acc e
    simp only [List.length_cons]
    omega

end DeployManager

/-- C9: with the current registry loading successfully, (i) if at least
one conflict is detected and `force` is off, `DeployBundle` fails with
the conflict error, every conflict's line appears in the printed output,
and there are zero side effects (filesystem unchanged, no app deployed
or failed); (ii) otherwise every app of the bundle is processed — the
deployed and failed tallies together count exactly the bundle's apps, so
one app's failure does not stop the rest — and the call as a whole fails
exactly when something failed and nothing deployed (partial success
returns success). -/
theorem claimC9_deploy_bundle (m : DeployManager) (bundle : DeploymentBundle)
    (bundleDir : String) (cm cm₁ : ConfigManager) (force : Bool) (fs : FS) (cfg : Config)
    (hload : cm.loadOp fs = .ok (cfg, cm₁)) :
    ((force = false ∧ DeployManager.detectConflicts bundle cfg ≠ []) →
       ((m.deployBundle bundle bundleDir cm force fs).err =
            some "use --force to override conflicts" ∧
        (m.deployBundle bundle bundleDir cm force fs).fs = fs ∧
        (m.deployBundle bundle bundleDir cm force fs).cm = cm₁ ∧
        (m.deployBundle bundle bundleDir cm force fs).deployed = [] ∧
        (m.deployBundle bundle bundleDir cm force fs).failed = [] ∧
        ∀ c ∈ DeployManager.detectConflicts bundle cfg,
          ("  - " ++ c.appName ++ ": " ++ c.message) ∈
            (m.deployBundle bundle bundleDir cm force fs).output)) ∧
    ((force = true ∨ DeployManager.detectConflicts bundle cfg = []) →
       ((m.deployBundle bundle bundleDir cm force fs).deployed.length +
          (m.deployBundle bundle bundleDir cm force fs).failed.length =
            bundle.apps.length ∧
        ((m.deployBundle bundle bundleDir cm force fs).err.isSome ↔
          ((m.deployBundle bundle bundleDir cm force fs).deployed = [] ∧
           (m.deployBundle bundle bundleDir cm force fs).failed ≠ [])))) := by
  have hR : m.deployBundle bundle bundleDir cm force fs =
      (if force = false ∧ DeployManager.detectConflicts bundle cfg ≠ [] then
        { output := "Deployment conflicts detected:" ::
            (DeployManager.detectConflicts bundle cfg).map
              (fun c => "  - " ++ c.appName ++ ": " ++ c.message)
          err := some "use --force to override conflicts"
          fs := fs, cm := cm₁, deployed := [], failed := [] }
      else
        match bundle.apps.foldl (m.deployStep bundleDir) ([], [], fs, cm₁) with
        | (deployed, failed, fs', cm') =>
          { output := []
            err := if failed ≠ [] ∧ deployed = [] then
                     some "failed to deploy any applications"
                   else none
            fs := fs', cm := cm', deployed := deployed, failed := failed }) := by
    unfold DeployManager.deployBundle
    rw [hload]
  rw [hR]
  constructor
  · rintro ⟨hf, hc⟩
    rw [if_pos ⟨hf, hc⟩]
    refine ⟨rfl, rfl, rfl, rfl, rfl, ?_⟩
    intro c hc'
    exact List.mem_cons_of_mem _ (List.mem_map_of_mem _ hc')
  · intro h2
    have hneg : ¬(force = false ∧ DeployManager.detectConflicts bundle cfg ≠ []) := by
      rcases h2 with h | h
      · rintro ⟨hf, -⟩
        rw [h] at hf
        exact Bool.noConfusion hf
      · rintro ⟨-, hc⟩
        exact hc h
    rw [if_neg hneg]
    rcases hfold : bundle.apps.foldl (m.deployStep bundleDir) ([], [], fs, cm₁) with
      ⟨deployed, failed, fs', cm'⟩
    simp only [hfold]
    constructor
    · have hcnt := DeployManager.foldl_deployStep_counts m bundleDir bundle.apps
        ([], [], fs, cm₁)
      rw [hfold] at hcnt
      simpa using hcnt
    · by_cases hcond : failed ≠ [] ∧ deployed = []
      · rw [if_pos hcond]
        simp [hcond.1, hcond.2]
      · rw [if_neg hcond]
        simp only [Option.isSome_none, Bool.false_eq_true, false_iff]
        rintro ⟨hd, hf⟩
        exact hcond ⟨hf, hd⟩

def appAlpha : AppConfig :=
  { name := "alpha", displayName := "Alpha", paths := [], enabled := true, lastSynced := 10 }

def cfgW : Config :=
  { version := "1.0", storePath := "/store", backupPath := "/bak"
    apps := [("alpha", appAlpha)], updatedAt := 0 }

def cmW : ConfigManager :=
  { configDir := "/home/u/.configsync", configPath := "/home/u/.configsync/config.yaml"
    config := none }

def fsW : FS := [(pkey "/home/u/.configsync/config.yaml", .file (.configDoc cfgW))]

def bundleW : DeploymentBundle :=
  { version := "1.0", createdAt := 5, createdBy := "u", apps := [("alpha", appAlpha)]
    metadata := [] }

def mD : DeployManager :=
  { homeDir := "/home/u", storeDir := "/store", backupDir := "/bak", verbose := false, now := 7 }

theorem claimC9_witness :
    cmW.loadOp fsW = .ok (cfgW, { cmW with config := some cfgW }) ∧
    (false = false ∧ DeployManager.detectConflicts bundleW cfgW ≠ []) ∧
    ((mD.deployBundle bundleW "/bundle" cmW false fsW).err =
        some "use --force to override conflicts" ∧
     (mD.deployBundle bundleW "/bundle" cmW false fsW).fs = fsW ∧
     (mD.deployBundle bundleW "/bundle" cmW false fsW).cm = { cmW with config := some cfgW } ∧
     (mD.deployBundle bundleW "/bundle" cmW false fsW).deployed = [] ∧
     (mD.deployBundle bundleW "/bundle" cmW false fsW).failed = [] ∧
     ∀ c ∈ DeployManager.detectConflicts bundleW cfgW,
       ("  - " ++ c.appName ++ ": " ++ c.message) ∈
         (mD.deployBundle bundleW "/bundle" cmW false fsW).output) :=
  ⟨by rfl, ⟨rfl, by decide⟩,
   (claimC9_deploy_bundle mD bundleW "/bundle" cmW { cmW with config := some cfgW }
      false fsW cfgW (by rfl)).1 ⟨rfl, by decide⟩⟩

section

attribute [local irreducible] pkey clean joinG joinG3 joinG4 dirG expandPath
  strReplaceChar splitSlash rawComps renderComps strHasPrefix

namespace BackupManager

/-- `saveBackupInfo` never disturbs an entry other than the sidecar it
writes. -/
theorem saveBackupInfo_find_kept (m : BackupManager) (bi : BackupInfo) (f fb : FS)
    (r : Option String) (q : Key) (n : FSNode)
    (hq : f.find q = some n)
    (hne : pkey (m.getBackupInfoPath bi.appName bi.originalPath) ≠ q)
    (h : m.saveBackupInfo bi f = (r, fb)) :
    fb.find q = some n := by
  unfold saveBackupInfo at h
  simp only [] at h
  rcases hmk : f.mkdirAllP (dirG (m.getBackupInfoPath bi.appName bi.originalPath)) with ⟨rm, fm⟩
  simp only [hmk] at h
  have hfm : fm.find q = some n := by
    have hg := FS.mkdirAllP_growsDirs f (dirG (m.getBackupInfoPath bi.appName bi.originalPath))
    rw [hmk] at hg
    exact FS.growsDirs_find_some hg hq
  cases rm with
  | some e =>
    obtain rfl : fm = fb := congrArg (fun x => x.2) h
    exact hfm
  | none =>
    obtain rfl : fm.insertP (m.getBackupInfoPath bi.appName bi.originalPath)
        (.file (.info bi)) = fb := congrArg (fun x => x.2) h
    unfold FS.insertP
    rw [FS.find_insertK, if_neg hne]
    exact hfm

/-- `BackupPath` never disturbs the backed-up source entry itself when the
snapshot and sidecar addresses differ from it, whatever branch it takes. -/
theorem backupPathOp_find_file_kept (m : BackupManager) (app : String) (p : ConfigPath)
    (fs fb : FS) (r : Option String) (d : FileData)
    (hq : fs.find (pkey (expandPath m.homeDir p.source)) = some (.file d))
    (hb1 : pkey (m.getBackupPath app p.destination) ≠ pkey (expandPath m.homeDir p.source))
    (hb2 : pkey (m.getBackupInfoPath app (expandPath m.homeDir p.source)) ≠
      pkey (expandPath m.homeDir p.source))
    (h : m.backupPathOp app p fs = (r, fb)) :
    fb.find (pkey (expandPath m.homeDir p.source)) = some (.file d) := by
  unfold backupPathOp at h
  simp only [] at h
  have hex : fs.pathExistsP (expandPath m.homeDir p.source) = true := by
    unfold FS.pathExistsP FS.statP
    rw [FS.statK_of_find_file _ _ _ hq]
    rfl
  rw [if_neg (by simp [hex])] at h
  have hsym : fs.isSymlinkP (expandPath m.homeDir p.source) = false := by
    unfold FS.isSymlinkP FS.findP
    rw [hq]
  rw [if_neg (by simp [hsym])] at h
  have hsz : calculateSize fs (expandPath m.homeDir p.source) = some (byteSize d) := by
    unfold calculateSize FS.statP
    rw [FS.statK_of_find_file _ _ _ hq]
  have core : ∀ (checksum : String) (rr : Option String) (ff : FS),
      (match calculateSize fs (expandPath m.homeDir p.source) with
       | none => (some "failed to calculate size", fs)
       | some size =>
         match fs.mkdirAllP (dirG (m.getBackupPath app p.destination)) with
         | (some e, f) => (some ("failed to create backup directory: " ++ e), f)
         | (none, f) =>
           match f.copyPathOp (expandPath m.homeDir p.source)
               (m.getBackupPath app p.destination) with
           | (some e, f') => (some ("failed to create backup: " ++ e), f')
           | (none, f') =>
             match m.saveBackupInfo
                 { appName := app, originalPath := expandPath m.homeDir p.source
                   backupPath := m.getBackupPath app p.destination, createdAt := m.now
                   size := size, checksum := checksum } f' with
             | (some e, f'') => (some ("failed to save backup info: " ++ e), f'')
             | (none, f'') => (none, f'')) = (rr, ff) →
      ff.find (pkey (expandPath m.homeDir p.source)) = some (.file d) := by
    intro checksum rr ff hcore
    rw [hsz] at hcore
    rcases hmk : fs.mkdirAllP (dirG (m.getBackupPath app p.destination)) with ⟨rm, fm⟩
    simp only [hmk] at hcore
    have hfm : fm.find (pkey (expandPath m.homeDir p.source)) = some (.file d) := by
      have hg := FS.mkdirAllP_growsDirs fs (dirG (m.getBackupPath app p.destination))
      rw [hmk] at hg
      exact FS.growsDirs_find_some hg hq
    cases rm with
    | some e =>
      obtain rfl : fm = ff := congrArg (fun x => x.2) hcore
      exact hfm
    | none =>
      have tail : ∀ (rr₂ : Option String) (ff₂ : FS),
          (match m.saveBackupInfo
               { appName := app, originalPath := expandPath m.homeDir p.source
                 backupPath := m.getBackupPath app p.destination, createdAt := m.now
                 size := byteSize d, checksum := checksum }
               (fm.insertK (pkey (m.getBackupPath app p.destination)) (.file d)) with
           | (some e, f'') => (some ("failed to save backup info: " ++ e), f'')
           | (none, f'') => (none, f'')) = (rr₂, ff₂) →
          ff₂.find (pkey (expandPath m.homeDir p.source)) = some (.file d) := by
        intro rr₂ ff₂ htail
        have hf's : (fm.insertK (pkey (m.getBackupPath app p.destination)) (.file d)).find
            (pkey (expandPath m.homeDir p.source)) = some (.file d) := by
          rw [FS.find_insertK, if_neg hb1]
          exact hfm
        rcases hsv : m.saveBackupInfo
            { appName := app, originalPath := expandPath m.homeDir p.source
              backupPath := m.getBackupPath app p.destination, createdAt := m.now
              size := byteSize d, checksum := checksum }
            (fm.insertK (pkey (m.getBackupPath app p.destination)) (.file d)) with ⟨rs, fsv⟩
        simp only [hsv] at htail
        cases rs with
        | some e =>
          obtain rfl : fsv = ff₂ := congrArg (fun x => x.2) htail
          exact saveBackupInfo_find_kept m _ _ _ _ _ _ hf's hb2 hsv
        | none =>
          obtain rfl : fsv = ff₂ := congrArg (fun x => x.2) htail
          exact saveBackupInfo_find_kept m _ _ _ _ _ _ hf's hb2 hsv
      rcases hfd : fm.find (pkey (m.getBackupPath app p.destination)) with _ | nd
      · have hcp : fm.copyPathOp (expandPath m.homeDir p.source)
            (m.getBackupPath app p.destination) =
            (none, fm.insertK (pkey (m.getBackupPath app p.destination)) (.file d)) := by
          unfold FS.copyPathOp FS.copyPathK
          rw [FS.statK_of_find_file _ _ _ hfm]
          unfold FS.copyFileK
          rw [FS.statK_of_find_file _ _ _ hfm, hfd]
        simp only [hcp] at hcore
        exact tail _ _ hcore
      · cases nd with
        | file d' =>
          have hcp : fm.copyPathOp (expandPath m.homeDir p.source)
              (m.getBackupPath app p.destination) =
              (none, fm.insertK (pkey (m.getBackupPath app p.destination)) (.file d)) := by
            unfold FS.copyPathOp FS.copyPathK
            rw [FS.statK_of_find_file _ _ _ hfm]
            unfold FS.copyFileK
            rw [FS.statK_of_find_file _ _ _ hfm, hfd]
          simp only [hcp] at hcore
          exact tail _ _ hcore
        | dir =>
          have hcp : fm.copyPathOp (expandPath m.homeDir p.source)
              (m.getBackupPath app p.destination) =
              (some ("open " ++ renderComps true (pkey (m.getBackupPath app p.destination)) ++
                ": is a directory"), fm) := by
            unfold FS.copyPathOp FS.copyPathK
            rw [FS.statK_of_find_file _ _ _ hfm]
            unfold FS.copyFileK
            rw [FS.statK_of_find_file _ _ _ hfm, hfd]
          simp only [hcp] at hcore
          obtain rfl : fm = ff := congrArg (fun x => x.2) hcore
          exact hfm
        | symlink t =>
          have hcp : fm.copyPathOp (expandPath m.homeDir p.source)
              (m.getBackupPath app p.destination) =
              (none, fm.insertK (pkey (m.getBackupPath app p.destination)) (.file d)) := by
            unfold FS.copyPathOp FS.copyPathK
            rw [FS.statK_of_find_file _ _ _ hfm]
            unfold FS.copyFileK
            rw [FS.statK_of_find_file _ _ _ hfm, hfd]
          simp only [hcp] at hcore
          exact tail _ _ hcore
  split at h
  · obtain rfl : fs = fb := congrArg (fun x => x.2) h
    exact hq
  · exact core _ _ _ h

end BackupManager


/-- C2 (amended): for a tracked path whose expanded source is a regular
file, a successful sync followed by a successful unsync restores the
source to a regular file with the original bytes, provided the source
key differs from the store target and from the temp-namespace snapshot
and sidecar addresses, and the source is not a component of its own
parent chain.  For a directory source the restored tree need not be
bit-identical: an inner symlink is copied back as a regular file holding
the link target's bytes. -/
theorem claimC2_amended (m : SymlinkManager) (fs : FS) (p : ConfigPath) (d : FileData)
    (f₁ f₂ : FS) (p₁ : ConfigPath)
    (hdry : m.dryRun = false)
    (habs : isAbsG (joinG m.storeDir p.destination) = true)
    (hsrc : fs.findP (expandPath m.homeDir p.source) = some (.file d))
    (hne : pkey (expandPath m.homeDir p.source) ≠ pkey (joinG m.storeDir p.destination))
    (hb1 : pkey (m.backupManager.getBackupPath "temp" p.destination) ≠
      pkey (expandPath m.homeDir p.source))
    (hb2 : pkey (m.backupManager.getBackupInfoPath "temp" (expandPath m.homeDir p.source)) ≠
      pkey (expandPath m.homeDir p.source))
    (hq2 : pkey (expandPath m.homeDir p.source) ∉
      FS.chainOf (pkey (dirG (expandPath m.homeDir p.source))))
    (hsync : m.syncPath fs p = (none, f₁, p₁))
    (hunsync : m.unsyncPath f₁ p₁ = (none, f₂)) :
    f₂.findP (expandPath m.homeDir p.source) = some (.file d) := by
  have hfld := SymlinkManager.syncPath_fields m fs p none f₁ p₁ hsync
  unfold SymlinkManager.syncPath at hsync
  have hnc : SymlinkManager.isCorrectSymlink fs (expandPath m.homeDir p.source)
      (joinG m.storeDir p.destination) = false := by
    unfold SymlinkManager.isCorrectSymlink FS.isSymlinkP
    rw [show fs.findP (expandPath m.homeDir p.source) = some (.file d) from hsrc]
    simp
  rw [if_neg (by simp [hnc])] at hsync
  rcases h1 : m.ensureStoreDirectory fs (joinG m.storeDir p.destination) with ⟨r1, f1⟩
  simp only [h1] at hsync
  cases r1 with
  | some e => exact absurd (congrArg (fun x => x.1) hsync) (by simp)
  | none =>
    have hf1s : f1.find (pkey (expandPath m.homeDir p.source)) = some (.file d) := by
      have hg : FS.growsDirs fs f1 := by
        unfold SymlinkManager.ensureStoreDirectory at h1
        rw [if_neg (by simp [hdry])] at h1
        rcases hmk1 : fs.mkdirAllP (dirG (joinG m.storeDir p.destination)) with ⟨rm, fm⟩
        simp only [hmk1] at h1
        have hgm := FS.mkdirAllP_growsDirs fs (dirG (joinG m.storeDir p.destination))
        rw [hmk1] at hgm
        cases rm with
        | some e' =>
          obtain rfl : fm = f1 := congrArg (fun x => x.2) h1
          exact hgm
        | none =>
          obtain rfl : fm = f1 := congrArg (fun x => x.2) h1
          exact hgm
      exact FS.growsDirs_find_some hg hsrc
    rcases h2 : m.handleExistingSource f1 (expandPath m.homeDir p.source)
        (joinG m.storeDir p.destination) p with ⟨r2, f2, p2⟩
    simp only [h2] at hsync
    cases r2 with
    | some e => exact absurd (congrArg (fun x => x.1) hsync) (by simp)
    | none =>
      have hf2st : f2.find (pkey (joinG m.storeDir p.destination)) = some (.file d) := by
        unfold SymlinkManager.handleExistingSource at h2
        have hex1 : f1.pathExistsP (expandPath m.homeDir p.source) = true := by
          unfold FS.pathExistsP FS.statP
          rw [FS.statK_of_find_file _ _ _ hf1s]
          rfl
        rw [if_neg (by simp [hex1])] at h2
        have hsym1 : f1.isSymlinkP (expandPath m.homeDir p.source) = false := by
          unfold FS.isSymlinkP FS.findP
          rw [hf1s]
        rw [if_neg (by simp [hsym1])] at h2
        unfold SymlinkManager.moveSourceToStore at h2
        rw [if_neg (by simp [hdry])] at h2
        have hfb : ((m.backupManager.backupPathOp "temp" p f1).2).find
            (pkey (expandPath m.homeDir p.source)) = some (.file d) :=
          BackupManager.backupPathOp_find_file_kept m.backupManager "temp" p f1
            (m.backupManager.backupPathOp "temp" p f1).2
            (m.backupManager.backupPathOp "temp" p f1).1 d hf1s hb1 hb2 rfl
        rcases hmv : ((m.backupManager.backupPathOp "temp" p f1).2.renameOp
            (expandPath m.homeDir p.source) (joinG m.storeDir p.destination)) with ⟨rv, fv⟩
        simp only [hmv] at h2
        cases rv with
        | some e' => exact absurd (congrArg (fun x => x.1) h2) (by simp)
        | none =>
          have heq := FS.renameOp_ok_eq ((m.backupManager.backupPathOp "temp" p f1).2)
            (expandPath m.homeDir p.source) (joinG m.storeDir p.destination) fv hne hmv
          have hfvst : fv.find (pkey (joinG m.storeDir p.destination)) = some (.file d) := by
            rw [heq]
            have hdst := FS.find_renamed_dst (pkey (expandPath m.homeDir p.source))
              (pkey (joinG m.storeDir p.destination)) (pkey (joinG m.storeDir p.destination))
              (List.prefix_refl _) ((m.backupManager.backupPathOp "temp" p f1).2)
            rw [hdst, List.drop_length, List.append_nil]
            exact hfb
          obtain rfl : fv = f2 := congrArg (fun x => x.2.1) h2
          exact hfvst
      have hex2 : f2.pathExistsP (joinG m.storeDir p.destination) = true := by
        unfold FS.pathExistsP FS.statP
        rw [FS.statK_of_find_file _ _ _ hf2st]
        rfl
      replace hsync : (if f2.pathExistsP (expandPath m.homeDir p.source) = false ∧
            f2.pathExistsP (joinG m.storeDir p.destination) = false then
          (SymlinkManager.handleMissingPath (expandPath m.homeDir p.source) p2, f2, p2)
        else
          ((m.createFinalSymlink f2 (expandPath m.homeDir p.source)
              (joinG m.storeDir p.destination)).1,
           (m.createFinalSymlink f2 (expandPath m.homeDir p.source)
              (joinG m.storeDir p.destination)).2, p2)) = (none, f₁, p₁) := hsync
      rw [if_neg (by simp [hex2])] at hsync
      rcases h3 : m.createFinalSymlink f2 (expandPath m.homeDir p.source)
          (joinG m.storeDir p.destination) with ⟨r3, f3⟩
      simp only [h3] at hsync
      obtain rfl : f3 = f₁ := congrArg (fun x => x.2.1) hsync
      have hr3 : r3 = none := congrArg (fun x => x.1) hsync
      subst hr3
      unfold SymlinkManager.createFinalSymlink at h3
      rw [if_neg (by simp [hdry])] at h3
      unfold SymlinkManager.createSymlink at h3
      rcases hmk2 : f2.mkdirAllP (dirG (expandPath m.homeDir p.source)) with ⟨r4, f4⟩
      simp only [hmk2] at h3
      cases r4 with
      | some e' => exact absurd (congrArg (fun x => x.1) h3) (by simp)
      | none =>
        unfold FS.symlinkOp at h3
        rcases h5 : f4.findP (expandPath m.homeDir p.source) with _ | n
        · simp only [h5] at h3
          obtain rfl : f4.insertP (expandPath m.homeDir p.source)
              (.symlink (joinG m.storeDir p.destination)) = f3 := congrArg (fun x => x.2) h3
          have hf4st : f4.find (pkey (joinG m.storeDir p.destination)) = some (.file d) := by
            have hgm := FS.mkdirAllP_growsDirs f2 (dirG (expandPath m.homeDir p.source))
            rw [hmk2] at hgm
            exact FS.growsDirs_find_some hgm hf2st
          have hcor : SymlinkManager.isCorrectSymlink
              (f4.insertP (expandPath m.homeDir p.source)
                (.symlink (joinG m.storeDir p.destination)))
              (expandPath m.homeDir p.source) (joinG m.storeDir p.destination) = true :=
            SymlinkManager.isCorrectSymlink_insert f4 _ _ habs
          have hfs1 : (f4.insertP (expandPath m.homeDir p.source)
                (.symlink (joinG m.storeDir p.destination))).find
              (pkey (expandPath m.homeDir p.source)) =
              some (.symlink (joinG m.storeDir p.destination)) := by
            unfold FS.insertP
            rw [FS.find_insertK, if_pos rfl]
          have hfst1 : (f4.insertP (expandPath m.homeDir p.source)
                (.symlink (joinG m.storeDir p.destination))).find
              (pkey (joinG m.storeDir p.destination)) = some (.file d) := by
            unfold FS.insertP
            rw [FS.find_insertK, if_neg hne]
            exact hf4st
          unfold SymlinkManager.unsyncPath at hunsync
          simp only [] at hunsync
          rw [hfld.1, hfld.2.1] at hunsync
          rw [if_neg (by simp [hcor])] at hunsync
          rw [if_neg (by simp [hdry])] at hunsync
          have hrm : (f4.insertP (expandPath m.homeDir p.source)
                (.symlink (joinG m.storeDir p.destination))).removeP
              (expandPath m.homeDir p.source) =
              (none, (f4.insertP (expandPath m.homeDir p.source)
                (.symlink (joinG m.storeDir p.destination))).eraseK
                  (pkey (expandPath m.homeDir p.source))) := by
            unfold FS.removeP
            simp only [hfs1]
          simp only [hrm] at hunsync
          have hf5st : ((f4.insertP (expandPath m.homeDir p.source)
                (.symlink (joinG m.storeDir p.destination))).eraseK
                  (pkey (expandPath m.homeDir p.source))).find
              (pkey (joinG m.storeDir p.destination)) = some (.file d) := by
            rw [FS.find_eraseK, if_neg hne]
            exact hfst1
          have hex5 : ((f4.insertP (expandPath m.homeDir p.source)
                (.symlink (joinG m.storeDir p.destination))).eraseK
                  (pkey (expandPath m.homeDir p.source))).pathExistsP
              (joinG m.storeDir p.destination) = true := by
            unfold FS.pathExistsP FS.statP
            rw [FS.statK_of_find_file _ _ _ hf5st]
            rfl
          rw [if_pos hex5] at hunsync
          rw [if_neg (by simp [hdry])] at hunsync
          have hf5s : ((f4.insertP (expandPath m.homeDir p.source)
                (.symlink (joinG m.storeDir p.destination))).eraseK
                  (pkey (expandPath m.homeDir p.source))).find
              (pkey (expandPath m.homeDir p.source)) = none := by
            rw [FS.find_eraseK, if_pos rfl]
          rcases hmk3 : ((f4.insertP (expandPath m.homeDir p.source)
                (.symlink (joinG m.storeDir p.destination))).eraseK
                  (pkey (expandPath m.homeDir p.source))).mkdirAllP
              (dirG (expandPath m.homeDir p.source)) with ⟨r6, f6⟩
          cases r6 with
          | some e' =>
            have hcfs : SymlinkManager.copyFromStore
                ((f4.insertP (expandPath m.homeDir p.source)
                  (.symlink (joinG m.storeDir p.destination))).eraseK
                    (pkey (expandPath m.homeDir p.source)))
                (joinG m.storeDir p.destination) (expandPath m.homeDir p.source) =
                (some ("failed to create source directory: " ++ e'), f6) := by
              unfold SymlinkManager.copyFromStore
              simp only [hmk3]
            simp only [hcfs] at hunsync
            exact absurd (congrArg (fun x => x.1) hunsync) (by simp)
          | none =>
            have hf6st : f6.find (pkey (joinG m.storeDir p.destination)) = some (.file d) := by
              have hgm := FS.mkdirAllP_growsDirs
                ((f4.insertP (expandPath m.homeDir p.source)
                  (.symlink (joinG m.storeDir p.destination))).eraseK
                    (pkey (expandPath m.homeDir p.source)))
                (dirG (expandPath m.homeDir p.source))
              rw [hmk3] at hgm
              exact FS.growsDirs_find_some hgm hf5st
            have hf6s : f6.find (pkey (expandPath m.homeDir p.source)) = none := by
              have hout := FS.mkdirAllK_find_outside
                ((f4.insertP (expandPath m.homeDir p.source)
                  (.symlink (joinG m.storeDir p.destination))).eraseK
                    (pkey (expandPath m.homeDir p.source)))
                (pkey (dirG (expandPath m.homeDir p.source)))
                (pkey (expandPath m.homeDir p.source)) hq2
              rw [show ((f4.insertP (expandPath m.homeDir p.source)
                  (.symlink (joinG m.storeDir p.destination))).eraseK
                    (pkey (expandPath m.homeDir p.source))).mkdirAllK
                  (pkey (dirG (expandPath m.homeDir p.source))) =
                ((f4.insertP (expandPath m.homeDir p.source)
                  (.symlink (joinG m.storeDir p.destination))).eraseK
                    (pkey (expandPath m.homeDir p.source))).mkdirAllP
                  (dirG (expandPath m.homeDir p.source)) from rfl, hmk3] at hout
              exact hout.trans hf5s
            have hst6 : f6.statP (joinG m.storeDir p.destination) = some (.file d) := by
              unfold FS.statP
              exact FS.statK_of_find_file _ _ _ hf6st
            have hcfs : SymlinkManager.copyFromStore
                ((f4.insertP (expandPath m.homeDir p.source)
                  (.symlink (joinG m.storeDir p.destination))).eraseK
                    (pkey (expandPath m.homeDir p.source)))
                (joinG m.storeDir p.destination) (expandPath m.homeDir p.source) =
                (none, f6.insertK (pkey (expandPath m.homeDir p.source)) (.file d)) := by
              unfold SymlinkManager.copyFromStore
              simp only [hmk3]
              simp only [hst6]
              unfold FS.copyFileK
              simp only [FS.statK_of_find_file f6 (pkey (joinG m.storeDir p.destination)) d hf6st,
                hf6s]
            simp only [hcfs] at hunsync
            obtain rfl : f6.insertK (pkey (expandPath m.homeDir p.source)) (.file d) = f₂ :=
              congrArg (fun x => x.2) hunsync
            show (f6.insertK (pkey (expandPath m.homeDir p.source)) (.file d)).find
              (pkey (expandPath m.homeDir p.source)) = some (.file d)
            rw [FS.find_insertK, if_pos rfl]
        · simp only [h5] at h3
          exact absurd (congrArg (fun x => x.1) h3) (by simp)

end

def pVimDir : ConfigPath :=
  { source := "~/.vim", destination := ".vim", type := .directory
    required := false, backedUp := false, synced := false, syncedAt := none }

def fsC2 : FS :=
  [(pkey "/home/u", .dir),
   (pkey "/home/u/.vim", .dir),
   (pkey "/home/u/.vim/colors", .symlink "/home/u/palette"),
   (pkey "/home/u/palette", .file (.raw "DATA"))]

/-- C2 counterexample: a directory source containing a symlink round-trips
through sync and unsync without error, but the restored tree is not
bit-identical to the original: the inner symlink comes back as a regular
file holding the link target's bytes, because the restore copies with
symlink resolution. -/
theorem claimC2_counterexample :
    fsC2.findP (expandPath mW.homeDir pVimDir.source) = some .dir ∧
    (mW.syncPath fsC2 pVimDir).1 = none ∧
    (mW.unsyncPath (mW.syncPath fsC2 pVimDir).2.1 (mW.syncPath fsC2 pVimDir).2.2).1 = none ∧
    (mW.unsyncPath (mW.syncPath fsC2 pVimDir).2.1 (mW.syncPath fsC2 pVimDir).2.2).2.findP
        "/home/u/.vim/colors" = some (.file (.raw "DATA")) ∧
    fsC2.findP "/home/u/.vim/colors" = some (.symlink "/home/u/palette") := by
  decide

theorem claimC2_witness :
    (mW.unsyncPath (mW.syncPath fsGit pGit).2.1 (mW.syncPath fsGit pGit).2.2).2.findP
        (expandPath mW.homeDir pGit.source) = some (.file (.raw "[user]")) :=
  claimC2_amended mW fsGit pGit (.raw "[user]")
    (mW.syncPath fsGit pGit).2.1
    (mW.unsyncPath (mW.syncPath fsGit pGit).2.1 (mW.syncPath fsGit pGit).2.2).2
    (mW.syncPath fsGit pGit).2.2
    (by decide) (by decide) (by decide) (by decide) (by decide) (by decide) (by decide)
    (by decide) (by decide)
